import Mathlib

/-!
Verification development for the life-long-memory storage and consolidation
pipeline.  The Python source (src/db.py, src/promote.py, src/auto.py,
src/entities.py, src/life_long_memory/search.py) is shallowly embedded:
SQL tables become Lean lists of rows, SQL statements become pure functions
on those lists, machine floats become exact rationals (reals where the
source computes a transcendental), and fallible operations return Option.
-/

namespace LifeLongMemory

/-- A row of the `sessions` table (schema in db.py, SCHEMA_SQL). -/
structure SessionRow where
  id : String
  source : String
  project_path : Option String
  project_name : Option String
  cwd : Option String
  model : Option String
  git_branch : Option String
  first_message_at : Int
  last_message_at : Int
  message_count : Int
  user_message_count : Int
  total_tokens : Int
  compaction_count : Int
  tools_used : Option String
  tier : String
  raw_path : Option String
  ingested_at : Option Int
  title : Option String
deriving DecidableEq, Repr

/-- The ON CONFLICT(id) DO UPDATE SET clause of `MemoryDB.upsert_session`
(db.py lines 221-228): only last_message_at, message_count,
user_message_count, total_tokens, tools_used, ingested_at and title are
taken from the excluded (incoming) row; every other column keeps the
existing row's value. -/
def conflictUpdate (old incoming : SessionRow) : SessionRow :=
  { old with
    last_message_at := incoming.last_message_at
    message_count := incoming.message_count
    user_message_count := incoming.user_message_count
    total_tokens := incoming.total_tokens
    tools_used := incoming.tools_used
    ingested_at := incoming.ingested_at
    title := incoming.title }

/-- `MemoryDB.upsert_session` (db.py lines 205-231): INSERT with
ON CONFLICT(id) DO UPDATE.  The table is a list of rows; `id` is the
primary key. -/
def upsert_session (tbl : List SessionRow) (s : SessionRow) : List SessionRow :=
  if tbl.any (fun r => r.id == s.id) then
    tbl.map (fun r => if r.id == s.id then conflictUpdate r s else r)
  else
    tbl ++ [s]

/-- Concrete stored session used in witnesses and counterexamples. -/
def sessA : SessionRow :=
  { id := "s1", source := "codex", project_path := some "/p", project_name := some "p",
    cwd := none, model := some "o3", git_branch := none,
    first_message_at := 100, last_message_at := 200,
    message_count := 5, user_message_count := 3, total_tokens := 10,
    compaction_count := 0, tools_used := some "[]", tier := "L3",
    raw_path := none, ingested_at := some 1, title := some "t" }

/-- Concrete incoming session (same id as sessA, different counters/metadata). -/
def sessB : SessionRow :=
  { sessA with
    source := "gemini"
    first_message_at := 50
    last_message_at := 300
    message_count := 8
    user_message_count := 4
    total_tokens := 20
    compaction_count := 5
    tier := "L2"
    title := some "u" }

/-- A row of the `session_summaries` table (schema in db.py). -/
structure SummaryRow where
  session_id : String
  summary_text : String
  key_decisions : Option String
  files_touched : Option String
  commands_run : Option String
  outcome : Option String
  generated_at : Option Int
  generator_model : Option String
deriving DecidableEq, Repr

/-- The two tables touched by upsert_summary / delete_summary. -/
structure SummaryDB where
  sessions : List SessionRow
  summaries : List SummaryRow
deriving DecidableEq, Repr

/-- UPDATE sessions SET tier = t WHERE id = sid. -/
def set_tier (sessions : List SessionRow) (sid t : String) : List SessionRow :=
  sessions.map (fun s => if s.id == sid then { s with tier := t } else s)

/-- `MemoryDB.upsert_summary` (db.py lines 330-356): one transaction that
upserts the summary row (INSERT ON CONFLICT(session_id) DO UPDATE of every
payload column) and then sets the session's tier to L2.  With foreign keys
on, inserting a summary for a missing session fails and the transaction
rolls back, which the model renders as `none`. -/
def upsert_summary (st : SummaryDB) (r : SummaryRow) : Option SummaryDB :=
  if st.summaries.any (fun q => q.session_id == r.session_id) then
    some { sessions := set_tier st.sessions r.session_id "L2",
           summaries := st.summaries.map
             (fun q => if q.session_id == r.session_id then r else q) }
  else if st.sessions.any (fun s => s.id == r.session_id) then
    some { sessions := set_tier st.sessions r.session_id "L2",
           summaries := st.summaries ++ [r] }
  else none

/-- `MemoryDB.delete_summary` (db.py lines 365-377): one transaction that
deletes the summary row and, only when a row was deleted, sets the session's
tier back to L3.  Returns the new state and whether a row was deleted. -/
def delete_summary (st : SummaryDB) (sid : String) : SummaryDB × Bool :=
  if st.summaries.any (fun q => q.session_id == sid) then
    ({ sessions := set_tier st.sessions sid "L3",
       summaries := st.summaries.filter (fun q => ¬(q.session_id == sid)) }, true)
  else (st, false)

/-- An operation in a sequence of summary mutations. -/
inductive SummaryOp where
  | upsert (r : SummaryRow)
  | del (sid : String)

/-- One step: a failed upsert rolls back (state unchanged). -/
def summaryStep (st : SummaryDB) : SummaryOp → SummaryDB
  | .upsert r => (upsert_summary st r).getD st
  | .del sid => (delete_summary st sid).1

/-- Run a sequence of upsert_summary / delete_summary operations. -/
def runSummaryOps (st : SummaryDB) (ops : List SummaryOp) : SummaryDB :=
  ops.foldl summaryStep st

/-- Invariant I3: a session's tier is L2 iff a session_summaries row exists
for its id. -/
def tierInvariant (st : SummaryDB) : Prop :=
  ∀ s ∈ st.sessions, (s.tier = "L2" ↔ ∃ q ∈ st.summaries, q.session_id = s.id)

instance (st : SummaryDB) : Decidable (tierInvariant st) := by
  unfold tierInvariant
  infer_instance

/-- Python str.split() with no argument: scan the characters, emitting the
current run of non-whitespace characters whenever whitespace is met; no
empty tokens are produced. -/
def splitWsAux : List Char → List Char → List String
  | [], [] => []
  | [], cur => [String.mk cur.reverse]
  | c :: rest, cur =>
    if c.isWhitespace then
      if cur = [] then splitWsAux rest []
      else String.mk cur.reverse :: splitWsAux rest []
    else splitWsAux rest (c :: cur)

/-- `query.split()` from _escape_fts5. -/
def pySplit (s : String) : List String :=
  splitWsAux s.data []

/-- `t.replace` with a one-character pattern (a double quote) and the
two-character replacement (two double quotes), as used in _escape_fts5. -/
def replaceQuoteChars : List Char → List Char
  | [] => []
  | c :: rest =>
    if c = '"' then '"' :: '"' :: replaceQuoteChars rest
    else c :: replaceQuoteChars rest

/-- String-level wrapper for replaceQuoteChars. -/
def replace_quote (t : String) : String :=
  String.mk (replaceQuoteChars t.data)

/-- `MemoryDB._escape_fts5` (db.py lines 487-498): quote every
whitespace-separated token (doubling embedded quotes) and join with single
spaces; a query with no tokens is returned unchanged. -/
def escape_fts5 (query : String) : String :=
  let tokens := pySplit query
  if tokens.isEmpty then query
  else String.intercalate " " (tokens.map (fun t => "\"" ++ replace_quote t ++ "\""))

/-- The two cooldown sentinel files under HOME/.tactical (auto.py lines
16-17): .last_daily_auto holds a date string, .last_promote_run holds a
float epoch. `none` means the file does not exist. -/
structure SentinelState where
  lastDailyAuto : Option String
  lastPromoteRun : Option ℚ
deriving DecidableEq, Repr

/-- `_mark_daily_run` (auto.py lines 45-48): write today's date. -/
def mark_daily_run (today : String) (st : SentinelState) : SentinelState :=
  { st with lastDailyAuto := some today }

/-- `_mark_promote_run` (auto.py lines 64-67): write the current epoch. -/
def mark_promote_run (now : ℚ) (st : SentinelState) : SentinelState :=
  { st with lastPromoteRun := some now }

/-- `_should_promote` (auto.py lines 53-61): true when no sentinel exists or
more than PROMOTE_COOLDOWN_SECONDS (3600) have passed. -/
def should_promote (now : ℚ) (st : SentinelState) : Bool :=
  match st.lastPromoteRun with
  | none => true
  | some t => now - t > 3600

/-- Sentinel effect of a completed `daily_auto_process` run (auto.py lines
472-474): step 7 calls `_mark_daily_run()` and then `_mark_promote_run()`.
No other statement of the pipeline touches either sentinel file. -/
def daily_auto_process_sentinels (today : String) (now : ℚ)
    (st : SentinelState) : SentinelState :=
  mark_promote_run now (mark_daily_run today st)

/-- Sentinel effect of a completed `promote_background` run (auto.py lines
585-622): returns immediately when `_should_promote()` is false; otherwise
the worker ends with `_mark_promote_run()`.  The daily sentinel is never
touched. -/
def promote_background_sentinels (now : ℚ) (st : SentinelState) : SentinelState :=
  if should_promote now st then mark_promote_run now st else st

/-- `_normalize` (promote.py lines 13-15): lowercase, drop characters that
are neither word characters nor whitespace, split on whitespace, take the
set of words (ASCII reading of the regex character classes). -/
def normalize_words (text : String) : Finset String :=
  (pySplit (String.mk ((text.data.map Char.toLower).filter
    (fun c => c.isAlphanum || c = '_' || c.isWhitespace)))).toFinset

/-- `_word_similarity` (promote.py lines 18-26): word-level Jaccard
similarity; 0 when either word set is empty. -/
def word_similarity (a b : String) : ℚ :=
  let words_a := normalize_words a
  let words_b := normalize_words b
  if words_a = ∅ ∨ words_b = ∅ then 0
  else ((words_a ∩ words_b).card : ℚ) / ((words_a ∪ words_b).card : ℚ)

/-- A row of the `project_knowledge` table (schema in db.py);
source_sessions holds the decoded JSON list. -/
structure KnowledgeRow where
  id : Int
  project_path : String
  knowledge_type : String
  content : String
  confidence : ℚ
  evidence_count : Int
  source_sessions : List String
  first_seen_at : Int
  last_confirmed_at : Int
  superseded_by : Option Int
deriving DecidableEq, Repr

/-- `MemoryDB.confirm_knowledge` (db.py lines 417-437): bump evidence_count
and last_confirmed_at of the row with the given id; when a confidence is
supplied, set confidence to the max of old and new. -/
def confirm_knowledge (tbl : List KnowledgeRow) (kid : Int) (conf : Option ℚ)
    (now : Int) : List KnowledgeRow :=
  tbl.map (fun r =>
    if r.id == kid then
      { r with
        evidence_count := r.evidence_count + 1
        last_confirmed_at := now
        confidence :=
          match conf with
          | some c => max r.confidence c
          | none => r.confidence }
    else r)

/-- A candidate entry parsed from the LLM's JSON array in
promote_project_knowledge. -/
structure Candidate where
  knowledge_type : String
  content : String
  confidence : ℚ
deriving DecidableEq, Repr

/-- The project_knowledge table together with the AUTOINCREMENT counter. -/
structure KnowledgeDB where
  rows : List KnowledgeRow
  nextId : Int
deriving DecidableEq, Repr

/-- The fuzzy-match scan of promote.py lines 131-135: the first entry of the
pre-loop snapshot whose word similarity with the candidate content is at
least 0.7 (the loop breaks at the first match). -/
def find_similar (existing : List KnowledgeRow) (content : String) :
    Option KnowledgeRow :=
  existing.find? (fun ex => (7 : ℚ)/10 ≤ word_similarity content ex.content)

/-- The fresh row built by the insert branch of the candidate loop
(promote.py lines 142-154): evidence_count 1, source session list bounded
to 10, both timestamps set to now. -/
def inserted_row (project_path : String) (session_ids : List String)
    (now : Int) (nid : Int) (c : Candidate) : KnowledgeRow :=
  { id := nid
    project_path := project_path
    knowledge_type := c.knowledge_type
    content := c.content
    confidence := c.confidence
    evidence_count := 1
    source_sessions := session_ids.take 10
    first_seen_at := now
    last_confirmed_at := now
    superseded_by := none }

/-- One iteration of the candidate loop of promote_project_knowledge
(promote.py lines 120-154) acting on (table, results): low-confidence
candidates are skipped; a fuzzy match against the snapshot `existing`
(fetched once before the loop, non-superseded entries of the project) is
confirmed via confirm_knowledge and the stale snapshot row is appended to
the results; otherwise a fresh row with evidence_count 1 is inserted and
appended to the results. -/
def process_candidate (existing : List KnowledgeRow) (project_path : String)
    (session_ids : List String) (now : Int)
    (st : KnowledgeDB × List KnowledgeRow) (c : Candidate) :
    KnowledgeDB × List KnowledgeRow :=
  if c.confidence < 1/2 then st
  else
    match find_similar existing c.content with
    | some m =>
      ({ st.1 with rows := confirm_knowledge st.1.rows m.id (some c.confidence) now },
       st.2 ++ [m])
    | none =>
      let newRow : KnowledgeRow := inserted_row project_path session_ids now st.1.nextId c
      ({ rows := st.1.rows ++ [newRow], nextId := st.1.nextId + 1 },
       st.2 ++ [newRow])

/-- The candidate loop of promote_project_knowledge; the second component is
the bare list the function returns. -/
def promote_loop (existing : List KnowledgeRow) (project_path : String)
    (session_ids : List String) (now : Int) (st : KnowledgeDB)
    (cs : List Candidate) : KnowledgeDB × List KnowledgeRow :=
  cs.foldl (process_candidate existing project_path session_ids now) (st, [])

/-- A row of the `messages` table as inserted by insert_messages (the
AUTOINCREMENT id column is assigned by the store and not part of the
insert). -/
structure MessageRow where
  session_id : String
  ordinal : Int
  role : String
  content_type : String
  content_text : String
  content_json : Option String
  tool_name : Option String
  token_count : Int
  created_at : Int
deriving DecidableEq, Repr

/-- A parsed message before `m.to_dict(parsed.id)` attaches the session id. -/
structure MsgData where
  ordinal : Int
  role : String
  content_type : String
  content_text : String
  content_json : Option String
  tool_name : Option String
  token_count : Int
  created_at : Int
deriving DecidableEq, Repr

/-- `m.to_dict(parsed.id)` (auto.py 237, 245): attach the parsed session's
id to the message record. -/
def MsgData.to_row (m : MsgData) (sid : String) : MessageRow :=
  { session_id := sid, ordinal := m.ordinal, role := m.role,
    content_type := m.content_type, content_text := m.content_text,
    content_json := m.content_json, tool_name := m.tool_name,
    token_count := m.token_count, created_at := m.created_at }

/-- A successfully parsed session: its metadata dict and messages. -/
structure ParsedSession where
  meta : SessionRow
  messages : List MsgData
deriving DecidableEq, Repr

/-- `MemoryDB.insert_messages` (db.py lines 233-249): INSERT OR IGNORE on
the (session_id, ordinal) unique key, row by row. -/
def insert_messages (tbl : List MessageRow) (ms : List MessageRow) : List MessageRow :=
  ms.foldl
    (fun acc m =>
      if acc.any (fun r => r.session_id == m.session_id && r.ordinal == m.ordinal)
      then acc
      else acc ++ [m])
    tbl

/-- The status `_session_status` (auto.py lines 88-105) assigns a parsed
session. -/
inductive IngestStatus where
  | new | updated | unchanged
deriving DecidableEq, Repr

/-- `_session_status`: new when no row is stored under the id; updated when
message_count, user_message_count or last_message_at differ; else
unchanged. -/
def session_status (sessions : List SessionRow) (p : SessionRow) : IngestStatus :=
  match sessions.find? (fun r => r.id == p.id) with
  | none => .new
  | some e =>
    if p.message_count ≠ e.message_count
        ∨ p.user_message_count ≠ e.user_message_count
        ∨ p.last_message_at ≠ e.last_message_at
    then .updated
    else .unchanged

/-- The sessions and messages tables as seen by auto_ingest (entity
extraction touches only the entity tables, modelled separately). -/
structure IngestDB where
  sessions : List SessionRow
  messages : List MessageRow
deriving DecidableEq, Repr

/-- The dict auto_ingest returns (auto.py lines 255-260). -/
structure IngestResult where
  sessionsCount : Int
  messagesCount : Int
  new_session_ids : List String
  updated_session_ids : List String
deriving DecidableEq, Repr

/-- One iteration of the auto_ingest file loop (auto.py lines 221-248):
`none` stands for a file whose parse raised or produced nothing.  Sessions
with zero user messages are discarded before the status comparison; new and
updated sessions are upserted and their messages inserted with
insert-or-ignore. -/
def ingest_file (acc : IngestDB × IngestResult) (po : Option ParsedSession) :
    IngestDB × IngestResult :=
  match po with
  | none => acc
  | some p =>
    if p.meta.user_message_count = 0 then acc
    else
      match session_status acc.1.sessions p.meta with
      | .unchanged => acc
      | .new =>
        ({ sessions := upsert_session acc.1.sessions p.meta
           messages := insert_messages acc.1.messages
             (p.messages.map (fun m => m.to_row p.meta.id)) },
         { acc.2 with
           sessionsCount := acc.2.sessionsCount + 1
           messagesCount := acc.2.messagesCount + p.messages.length
           new_session_ids := acc.2.new_session_ids ++ [p.meta.id] })
      | .updated =>
        ({ sessions := upsert_session acc.1.sessions p.meta
           messages := insert_messages acc.1.messages
             (p.messages.map (fun m => m.to_row p.meta.id)) },
         { acc.2 with
           updated_session_ids := acc.2.updated_session_ids ++ [p.meta.id] })

/-- The zero counters auto_ingest starts from. -/
def emptyIngestResult : IngestResult :=
  { sessionsCount := 0, messagesCount := 0,
    new_session_ids := [], updated_session_ids := [] }

/-- `auto_ingest` (auto.py lines 191-260) over the parse results of the
discovered files, in discovery order. -/
def auto_ingest (db : IngestDB) (files : List (Option ParsedSession)) :
    IngestDB × IngestResult :=
  files.foldl ingest_file (db, emptyIngestResult)

/-- The ids of the parse results that survive the discard gate (parse
succeeded and user_message_count is nonzero). -/
def effective_ids (files : List (Option ParsedSession)) : List String :=
  files.filterMap
    (fun po =>
      match po with
      | none => none
      | some p => if p.meta.user_message_count = 0 then none else some p.meta.id)

/-- A row of the `entities` table. -/
structure EntityRow where
  id : Int
  entity_type : String
  canonical_value : String
  first_seen_at : Int
  last_seen_at : Int
  occurrence_count : Int
deriving DecidableEq, Repr

/-- A row of the `entity_occurrences` table; (entity_id, message_id) is the
primary key. -/
structure OccurrenceRow where
  entity_id : Int
  session_id : String
  message_id : Int
  context_snippet : String
deriving DecidableEq, Repr

/-- The entity tables with the AUTOINCREMENT counter of `entities.id`. -/
structure EntityDB where
  entities : List EntityRow
  occurrences : List OccurrenceRow
  nextId : Int
deriving DecidableEq, Repr

/-- The (entity_type, canonical_value) conflict target of upsert_entity. -/
def key_pred (ty v : String) (e : EntityRow) : Bool :=
  e.entity_type == ty && e.canonical_value == v

/-- The fresh row the insert branch of upsert_entity creates. -/
def new_entity_row (nid : Int) (ty v : String) (seen : Int) : EntityRow :=
  { id := nid, entity_type := ty, canonical_value := v,
    first_seen_at := seen, last_seen_at := seen, occurrence_count := 1 }

/-- The DO UPDATE SET clause of upsert_entity applied to the conflicting
row: last_seen_at becomes the max of the stored and the excluded value,
occurrence_count is incremented. -/
def bump_entity (ty v : String) (seen : Int) (x : EntityRow) : EntityRow :=
  if key_pred ty v x then
    { x with
      last_seen_at := max seen x.last_seen_at
      occurrence_count := x.occurrence_count + 1 }
  else x

/-- `MemoryDB.upsert_entity` (db.py lines 299-312): INSERT with ON
CONFLICT(entity_type, canonical_value) DO UPDATE SET last_seen_at to the
max and occurrence_count + 1, RETURNING id. -/
def upsert_entity (st : EntityDB) (ty v : String) (seen : Int) : Int × EntityDB :=
  match st.entities.find? (key_pred ty v) with
  | some e =>
    (e.id, { st with entities := st.entities.map (bump_entity ty v seen) })
  | none =>
    (st.nextId,
     { entities := st.entities ++ [new_entity_row st.nextId ty v seen]
       occurrences := st.occurrences
       nextId := st.nextId + 1 })

/-- `MemoryDB.insert_entity_occurrence` (db.py lines 314-326): INSERT OR
IGNORE on the (entity_id, message_id) primary key. -/
def insert_entity_occurrence (st : EntityDB) (eid : Int) (sid : String)
    (mid : Int) (ctx : String) : EntityDB :=
  if st.occurrences.any (fun o => o.entity_id == eid && o.message_id == mid) then st
  else { st with occurrences := st.occurrences ++
    [{ entity_id := eid, session_id := sid, message_id := mid, context_snippet := ctx }] }

/-- A stored message as returned by get_session_messages: the fields the
extraction loop reads (id is the AUTOINCREMENT message id). -/
structure StoredMessage where
  id : Int
  role : String
  content_text : String
  created_at : Int
deriving DecidableEq, Repr

/-- `ExtractedEntity` (entities.py lines 41-45). -/
structure ExtractedEntity where
  entity_type : String
  value : String
  context : String
deriving DecidableEq, Repr

/-- The body of the inner loop of extract_entities_for_session (entities.py
lines 92-101): upsert the entity, then insert the occurrence, then count. -/
def process_entity (sid : String) (mid : Int) (seen : Int)
    (a : EntityDB × Int) (ent : ExtractedEntity) : EntityDB × Int :=
  let r := upsert_entity a.1 ent.entity_type ent.value seen
  (insert_entity_occurrence r.2 r.1 sid mid ent.context, a.2 + 1)

/-- One message of the extraction loop (entities.py lines 84-101): skip
non-user/assistant roles and empty text, else process every extracted
entity of the message text. -/
def extract_for_message (extract : String → List ExtractedEntity) (sid : String)
    (acc : EntityDB × Int) (m : StoredMessage) : EntityDB × Int :=
  if m.role ≠ "user" ∧ m.role ≠ "assistant" then acc
  else if m.content_text = "" then acc
  else (extract m.content_text).foldl (process_entity sid m.id m.created_at) acc

/-- `extract_entities_for_session` (entities.py lines 76-104), parametrized
by the pure regex extractor `extract_entities` (a fixed pure function of the
message text in the source) and by the session's stored messages in ordinal
order; a missing session short-circuits to count 0. -/
def extract_entities_for_session (extract : String → List ExtractedEntity)
    (hasSession : Bool) (sid : String) (msgs : List StoredMessage)
    (st : EntityDB) : EntityDB × Int :=
  if hasSession then msgs.foldl (extract_for_message extract sid) (st, 0)
  else (st, 0)

/-- Lookup of the entity row under a (entity_type, canonical_value) key —
the same find? upsert_entity resolves its conflict against. -/
def find_entity (st : EntityDB) (ty v : String) : Option EntityRow :=
  st.entities.find? (key_pred ty v)

/-- An entity key is matched in a session when some user/assistant message
with nonempty text yields an extracted entity with that key. -/
def matched (extract : String → List ExtractedEntity)
    (msgs : List StoredMessage) (ty v : String) : Prop :=
  ∃ m ∈ msgs, (m.role = "user" ∨ m.role = "assistant") ∧ m.content_text ≠ "" ∧
    ∃ ent ∈ extract m.content_text, ent.entity_type = ty ∧ ent.value = v

/-- The storage witness extraction leaves behind for one (entity, message)
hit: the entity row is findable under its key and an occurrence row links
it to the message. -/
def covered_entry (st : EntityDB) (ty v : String) (mid : Int) : Prop :=
  ∃ e, find_entity st ty v = some e ∧
    ∃ o ∈ st.occurrences, o.entity_id = e.id ∧ o.message_id = mid

/-- Every entity row findable in st1 is findable in s under the same id. -/
def cover_find (st1 s : EntityDB) : Prop :=
  ∀ ty v e1, find_entity st1 ty v = some e1 →
    ∃ e, find_entity s ty v = some e ∧ e.id = e1.id

/-- A row of the search_fts result set as hybrid_search consumes it
(search.py 76-87): session id, raw bm25 rank (a float, hence an exact
rational here) and the message text. -/
structure FtsRow where
  session_id : String
  rank : ℚ
  content_text : String

/-- `SearchResult` (search.py 13-34); the score is a real number because
the recency factor is a power of two with rational exponent. -/
structure SearchResult where
  session_id : String
  score : ℝ
  source : String
  project_name : Option String
  title : Option String
  summary : Option String
  first_message_at : Int
  matching_snippets : List String

/-- `recency_score` (search.py 37-43): age in days from the epoch argument
(clamped at 0 when negative), half-life 30 days.  The two lets of the
source are inlined into one expression. -/
noncomputable def recency_score (now epoch : ℚ) : ℝ :=
  (2 : ℝ) ^
    (-(((if (now - epoch) / 86400 < 0 then 0 else (now - epoch) / 86400 : ℚ)) : ℝ) / 30)

/-- `importance_score` (search.py 46-60). -/
def importance_score (s : SessionRow) : ℚ :=
  min ((s.message_count : ℚ) / 100) 1 * (3/10)
    + min ((s.user_message_count : ℚ) / 20) 1 * (3/10)
    + min ((s.total_tokens : ℚ) / 200000) 1 * (2/10)
    + min ((s.compaction_count : ℚ) / 5) 1 * (2/10)

/-- One row of the session grouping loop of hybrid_search (search.py
79-87): per session id keep the best absolute bm25 and the 200-char snippet
of the row that achieved it. -/
def group_step (acc : List (String × ℚ × String)) (row : FtsRow) :
    List (String × ℚ × String) :=
  match acc.find? (fun e => e.1 == row.session_id) with
  | none => acc ++ [(row.session_id, |row.rank|, row.content_text.take 200)]
  | some e =>
    if |row.rank| > e.2.1 then
      acc.map (fun x =>
        if x.1 == row.session_id then
          (x.1, |row.rank|, row.content_text.take 200)
        else x)
    else acc

/-- The session grouping of hybrid_search, in first-appearance order. -/
def group_fts (rows : List FtsRow) : List (String × ℚ × String) :=
  rows.foldl group_step []

/-- `max(s.rank for ...) or 1.0` (search.py 93): the maximum of the grouped
ranks, replaced by 1 when it is 0 (Python float falsiness). -/
def max_rank (g : List (String × ℚ × String)) : ℚ :=
  if (g.map (fun e => e.2.1)).foldl max 0 = 0 then 1
  else (g.map (fun e => e.2.1)).foldl max 0

/-- The project filter of search.py line 103, including the Python
truthiness of the argument (an empty string disables the filter). -/
def project_filter (project_path : Option String) (s : SessionRow) : Bool :=
  match project_path with
  | none => false
  | some p => p ≠ "" && s.project_path ≠ some p

/-- The after filter of search.py line 105, including the Python truthiness
of the argument (0 disables the filter). -/
def after_filter (after : Option Int) (s : SessionRow) : Bool :=
  match after with
  | none => false
  | some a => a ≠ 0 && s.first_message_at < a

/-- The SearchResult built for one surviving session (search.py 108-127):
final score 0.5 * normalized bm25 + 0.25 * recency + 0.25 * importance. -/
noncomputable def score_session (now mr : ℚ) (s : SessionRow)
    (e : String × ℚ × String) (summary : Option String) : SearchResult :=
  { session_id := e.1
    score := ((e.2.1 / mr : ℚ) : ℝ) * (1/2)
      + recency_score now (s.first_message_at : ℚ) * (1/4)
      + ((importance_score s : ℚ) : ℝ) * (1/4)
    source := s.source
    project_name := s.project_name
    title := s.title
    summary := summary
    first_message_at := s.first_message_at
    matching_snippets := [e.2.2] }

/-- The result-building loop of hybrid_search (search.py 96-127): sessions
are looked up, filtered, and scored; the bm25 divisor is the max over the
grouped set, computed before the filters. -/
noncomputable def hybrid_results (fts_results : List FtsRow)
    (getSession : String → Option SessionRow)
    (getSummary : String → Option String) (now : ℚ)
    (project_path : Option String) (after : Option Int) : List SearchResult :=
  (group_fts fts_results).filterMap (fun e =>
    match getSession e.1 with
    | none => none
    | some s =>
      if project_filter project_path s then none
      else if after_filter after s then none
      else some (score_session now (max_rank (group_fts fts_results)) s e
        (getSummary e.1)))

/-- `hybrid_search` (search.py 63-131): empty grouped set short-circuits to
[]; otherwise score, sort by score descending (a stable sort, as in
Python), truncate to limit. -/
noncomputable def hybrid_search (fts_results : List FtsRow)
    (getSession : String → Option SessionRow)
    (getSummary : String → Option String) (now : ℚ) (limit : Nat)
    (project_path : Option String) (after : Option Int) : List SearchResult :=
  if (group_fts fts_results).isEmpty then []
  else
    ((hybrid_results fts_results getSession getSummary now project_path
        after).insertionSort (fun a b => b.score ≤ a.score)).take limit

/-- Modelled from the spec (§4.4 steps 3-4): the same search but with the
bm25 maximum computed across the surviving set, AFTER the project/after
filters — used only as the comparison point for the normalization claim. -/
noncomputable def hybrid_search_specNormalized (fts_results : List FtsRow)
    (getSession : String → Option SessionRow)
    (getSummary : String → Option String) (now : ℚ) (limit : Nat)
    (project_path : Option String) (after : Option Int) : List SearchResult :=
  let survivors := (group_fts fts_results).filterMap (fun e =>
    match getSession e.1 with
    | none => none
    | some s =>
      if project_filter project_path s then none
      else if after_filter after s then none
      else some (e, s))
  if survivors.isEmpty then []
  else
    ((survivors.map (fun x =>
        score_session now (max_rank (survivors.map (fun y => y.1))) x.2 x.1
          (getSummary x.1.1))).insertionSort
      (fun a b => b.score ≤ a.score)).take limit

-- ═══════════════════════════ Theorems ═══════════════════════════

/-- Helper: find? over a map whose function preserves the search predicate. -/
theorem find?_map_of_pred_eq {α : Type} (p : α → Bool) (f : α → α)
    (hf : ∀ x, p (f x) = p x) :
    ∀ l : List α, (l.map f).find? p = (l.find? p).map f := by
  intro l
  induction l with
  | nil => rfl
  | cons a t ih =>
    simp only [List.map_cons, List.find?]
    rw [hf a]
    cases hp : p a
    · simpa using ih
    · rfl

/-- Helper: a successful find? implies any. -/
theorem any_of_find?_eq_some {α : Type} {p : α → Bool} {l : List α} {a : α}
    (h : l.find? p = some a) : l.any p = true := by
  induction l with
  | nil => simp [List.find?] at h
  | cons b t ih =>
    simp only [List.find?] at h
    by_cases hb : p b
    · simp [List.any, hb]
    · simp only [Bool.not_eq_true] at hb
      rw [hb] at h
      simp only [List.any_cons, Bool.or_eq_true]
      exact Or.inr (by simpa [List.any] using ih h)

/-- Helper: a successful find? satisfies the predicate. -/
theorem pred_of_find?_eq_some {α : Type} {p : α → Bool} :
    ∀ {l : List α} {a : α}, l.find? p = some a → p a = true := by
  intro l
  induction l with
  | nil => intro a h; simp [List.find?] at h
  | cons b t ih =>
    intro a h
    simp only [List.find?] at h
    by_cases hb : p b
    · rw [hb] at h
      cases h
      exact hb
    · simp only [Bool.not_eq_true] at hb
      rw [hb] at h
      exact ih h

/-- Helper: conflictUpdate preserves the row id, hence the id predicate. -/
theorem conflictUpdate_pred (s : SessionRow) :
    ∀ x : SessionRow,
      ((if x.id == s.id then conflictUpdate x s else x).id == s.id) = (x.id == s.id) := by
  intro x
  by_cases h : x.id == s.id
  · simp [h, conflictUpdate]
  · simp [h]

/-- Claim C4 (amended): when a session with the same id is already stored,
upsert_session updates only message_count, user_message_count, total_tokens,
tools_used, ingested_at, title and last_message_at of the existing row, and
leaves first_message_at, source, compaction_count and all other fields
unchanged (the original claim wrongly listed compaction_count among the
updated counters). -/
theorem upsert_session_conflict_frame (tbl : List SessionRow) (s old : SessionRow)
    (h : tbl.find? (fun r => r.id == s.id) = some old) :
    ∃ upd, (upsert_session tbl s).find? (fun r => r.id == s.id) = some upd ∧
      upd.last_message_at = s.last_message_at ∧
      upd.message_count = s.message_count ∧
      upd.user_message_count = s.user_message_count ∧
      upd.total_tokens = s.total_tokens ∧
      upd.tools_used = s.tools_used ∧
      upd.ingested_at = s.ingested_at ∧
      upd.title = s.title ∧
      upd.id = old.id ∧
      upd.source = old.source ∧
      upd.project_path = old.project_path ∧
      upd.project_name = old.project_name ∧
      upd.cwd = old.cwd ∧
      upd.model = old.model ∧
      upd.git_branch = old.git_branch ∧
      upd.first_message_at = old.first_message_at ∧
      upd.compaction_count = old.compaction_count ∧
      upd.tier = old.tier ∧
      upd.raw_path = old.raw_path ∧
      (upsert_session tbl s).length = tbl.length := by
  have hfind : (upsert_session tbl s).find? (fun r => r.id == s.id)
      = some (conflictUpdate old s) := by
    unfold upsert_session
    rw [if_pos (any_of_find?_eq_some h)]
    rw [find?_map_of_pred_eq (fun r => r.id == s.id)
          (fun x => if x.id == s.id then conflictUpdate x s else x) (conflictUpdate_pred s) tbl]
    rw [h]
    have hp := pred_of_find?_eq_some h
    simp at hp
    simp [hp]
  have hlen : (upsert_session tbl s).length = tbl.length := by
    unfold upsert_session
    rw [if_pos (any_of_find?_eq_some h)]
    exact List.length_map _ _
  exact ⟨conflictUpdate old s, hfind, rfl, rfl, rfl, rfl, rfl, rfl, rfl, rfl, rfl, rfl,
    rfl, rfl, rfl, rfl, rfl, rfl, rfl, rfl, hlen⟩

/-- Witness for upsert_session_conflict_frame at a concrete stored table. -/
theorem upsert_session_conflict_frame_witness :
    [sessA].find? (fun r => r.id == sessB.id) = some sessA ∧
    ∃ upd, (upsert_session [sessA] sessB).find? (fun r => r.id == sessB.id) = some upd ∧
      upd.last_message_at = sessB.last_message_at ∧
      upd.message_count = sessB.message_count ∧
      upd.user_message_count = sessB.user_message_count ∧
      upd.total_tokens = sessB.total_tokens ∧
      upd.tools_used = sessB.tools_used ∧
      upd.ingested_at = sessB.ingested_at ∧
      upd.title = sessB.title ∧
      upd.id = sessA.id ∧
      upd.source = sessA.source ∧
      upd.project_path = sessA.project_path ∧
      upd.project_name = sessA.project_name ∧
      upd.cwd = sessA.cwd ∧
      upd.model = sessA.model ∧
      upd.git_branch = sessA.git_branch ∧
      upd.first_message_at = sessA.first_message_at ∧
      upd.compaction_count = sessA.compaction_count ∧
      upd.tier = sessA.tier ∧
      upd.raw_path = sessA.raw_path ∧
      (upsert_session [sessA] sessB).length = [sessA].length :=
  ⟨by decide, upsert_session_conflict_frame [sessA] sessB sessA (by decide)⟩

/-- Counterexample to claim C4 as stated: compaction_count is not among the
columns updated on conflict — the stored row keeps compaction_count 0 even
though the incoming row carries 5. -/
theorem upsert_session_compaction_not_updated :
    (upsert_session [sessA] sessB).map SessionRow.compaction_count = [0] ∧
    sessB.compaction_count = 5 := by
  decide

/-- Helper: a successful upsert_summary preserves the tier invariant. -/
theorem upsert_summary_tier_preserved {st st' : SummaryDB} {r : SummaryRow}
    (h : upsert_summary st r = some st') (hinv : tierInvariant st) : tierInvariant st' := by
  unfold upsert_summary at h
  by_cases hq : st.summaries.any (fun q => q.session_id == r.session_id) = true
  · rw [if_pos hq] at h
    injection h with h
    subst h
    intro s' hs'
    rcases List.mem_map.1 hs' with ⟨s, hs, rfl⟩
    by_cases hid : s.id = r.session_id
    · have hcond : (s.id == r.session_id) = true := by simp [hid]
      rw [if_pos hcond]
      constructor
      · intro _
        rcases List.any_eq_true.1 hq with ⟨q0, hq0, hq0p⟩
        refine ⟨r, List.mem_map.2 ⟨q0, hq0, by rw [if_pos hq0p]⟩, ?_⟩
        exact hid.symm
      · intro _
        rfl
    · rw [if_neg (by simp [hid])]
      rw [hinv s hs]
      constructor
      · rintro ⟨q, hqm, hqid⟩
        have hq' : (q.session_id == r.session_id) = false := by
          rw [hqid]
          exact beq_eq_false_iff_ne.2 hid
        exact ⟨q, List.mem_map.2 ⟨q, hqm, by rw [if_neg (by simp [hq'])]⟩, hqid⟩
      · rintro ⟨q', hq'm, hq'id⟩
        rcases List.mem_map.1 hq'm with ⟨q, hqm, rfl⟩
        by_cases hqr : (q.session_id == r.session_id) = true
        · exfalso
          rw [if_pos hqr] at hq'id
          exact hid (hq'id ▸ rfl)
        · rw [if_neg hqr] at hq'id
          exact ⟨q, hqm, hq'id⟩
  · rw [if_neg hq] at h
    by_cases hsess : st.sessions.any (fun s => s.id == r.session_id) = true
    · rw [if_pos hsess] at h
      injection h with h
      subst h
      intro s' hs'
      rcases List.mem_map.1 hs' with ⟨s, hs, rfl⟩
      by_cases hid : s.id = r.session_id
      · have hcond : (s.id == r.session_id) = true := by simp [hid]
        rw [if_pos hcond]
        constructor
        · intro _
          exact ⟨r, List.mem_append.2 (Or.inr (List.mem_singleton.2 rfl)), hid.symm⟩
        · intro _
          rfl
      · rw [if_neg (by simp [hid])]
        rw [hinv s hs]
        constructor
        · rintro ⟨q, hqm, hqid⟩
          exact ⟨q, List.mem_append.2 (Or.inl hqm), hqid⟩
        · rintro ⟨q', hq'm, hq'id⟩
          rcases List.mem_append.1 hq'm with hin | hin
          · exact ⟨q', hin, hq'id⟩
          · exfalso
            rw [List.mem_singleton.1 hin] at hq'id
            exact hid (hq'id ▸ rfl)
    · rw [if_neg hsess] at h
      exact absurd h (by simp)

/-- Helper: delete_summary preserves the tier invariant. -/
theorem delete_summary_tier_preserved {st : SummaryDB} {sid : String}
    (hinv : tierInvariant st) : tierInvariant (delete_summary st sid).1 := by
  unfold delete_summary
  by_cases hq : st.summaries.any (fun q => q.session_id == sid) = true
  · rw [if_pos hq]
    intro s' hs'
    rcases List.mem_map.1 hs' with ⟨s, hs, rfl⟩
    by_cases hid : s.id = sid
    · have hcond : (s.id == sid) = true := by simp [hid]
      rw [if_pos hcond]
      constructor
      · intro habs
        have : ("L3" : String) = "L2" := habs
        exact absurd this (by decide)
      · rintro ⟨q', hq'm, hq'id⟩
        rcases List.mem_filter.1 hq'm with ⟨_, hq'cond⟩
        have : (q'.session_id == sid) = false := by
          revert hq'cond
          cases q'.session_id == sid <;> simp
        rw [beq_eq_false_iff_ne] at this
        exact absurd (by simpa [hid] using hq'id) this
    · rw [if_neg (by simp [hid])]
      rw [hinv s hs]
      constructor
      · rintro ⟨q, hqm, hqid⟩
        refine ⟨q, List.mem_filter.2 ⟨hqm, ?_⟩, hqid⟩
        have hq' : (q.session_id == sid) = false := by
          rw [hqid]
          exact beq_eq_false_iff_ne.2 hid
        simp [hq']
      · rintro ⟨q', hq'm, hq'id⟩
        exact ⟨q', (List.mem_filter.1 hq'm).1, hq'id⟩
  · rw [if_neg hq]
    exact hinv

/-- Helper: a single summary operation preserves the tier invariant. -/
theorem summaryStep_tier_preserved {st : SummaryDB} (op : SummaryOp)
    (hinv : tierInvariant st) : tierInvariant (summaryStep st op) := by
  cases op with
  | upsert r =>
    cases hu : upsert_summary st r with
    | none => simpa [summaryStep, hu] using hinv
    | some st' => simpa [summaryStep, hu] using upsert_summary_tier_preserved hu hinv
  | del sid =>
    exact delete_summary_tier_preserved hinv

/-- Helper: running any op sequence preserves the tier invariant. -/
theorem runSummaryOps_tier_preserved :
    ∀ (ops : List SummaryOp) (st : SummaryDB),
      tierInvariant st → tierInvariant (runSummaryOps st ops)
  | [], _, h => h
  | op :: t, st, h =>
    runSummaryOps_tier_preserved t (summaryStep st op) (summaryStep_tier_preserved op h)

/-- Claim C3: after any sequence of upsert_summary and delete_summary
operations from a state satisfying it, a session's tier is L2 iff a
session_summaries row exists for its id; a failed (rolled-back) upsert
leaves both tables unchanged, and delete_summary on a session with no
summary row leaves the state untouched. -/
theorem tier_L2_iff_summary_row (st : SummaryDB) (ops : List SummaryOp)
    (hinv : tierInvariant st) :
    tierInvariant (runSummaryOps st ops) ∧
    (∀ r, upsert_summary st r = none → summaryStep st (.upsert r) = st) ∧
    (∀ sid, (delete_summary st sid).2 = false → (delete_summary st sid).1 = st) := by
  refine ⟨runSummaryOps_tier_preserved ops st hinv, ?_, ?_⟩
  · intro r h
    simp [summaryStep, h]
  · intro sid h
    unfold delete_summary at h ⊢
    by_cases hq : st.summaries.any (fun q => q.session_id == sid) = true
    · rw [if_pos hq] at h
      simp at h
    · rw [if_neg hq]

/-- Helper: the char-level replace equals flat-mapping each character to its
doubled form. -/
theorem replaceQuoteChars_eq_flatMap (l : List Char) :
    replaceQuoteChars l = l.flatMap (fun c => if c = '"' then ['"', '"'] else [c]) := by
  induction l with
  | nil => rfl
  | cons c rest ih =>
    by_cases h : c = '"' <;> simp [replaceQuoteChars, h, ih]

/-- Helper: splitWsAux returns no tokens iff the accumulator is empty and
every remaining character is whitespace. -/
theorem splitWsAux_eq_nil_iff :
    ∀ (l : List Char) (cur : List Char),
      splitWsAux l cur = [] ↔ (cur = [] ∧ ∀ c ∈ l, c.isWhitespace) := by
  intro l
  induction l with
  | nil =>
    intro cur
    cases cur <;> simp [splitWsAux]
  | cons c rest ih =>
    intro cur
    by_cases hws : c.isWhitespace
    · by_cases hcur : cur = []
      · subst hcur
        simp [splitWsAux, hws, ih]
      · simp [splitWsAux, hws, hcur]
    · simp [splitWsAux, hws, ih]

/-- Helper: the source-side quoted token equals the spec-side description
(wrap in quotes, double each embedded quote). -/
theorem quote_token_eq (t : String) :
    "\"" ++ replace_quote t ++ "\"" =
      String.mk ('"' :: t.data.flatMap (fun c => if c = '"' then ['"', '"'] else [c])
        ++ ['"']) := by
  unfold replace_quote
  rw [replaceQuoteChars_eq_flatMap]
  rfl

/-- Claim C8: escape_fts5 replaces each whitespace-separated token by the
token wrapped in double quotes with every embedded double quote doubled,
joined by single spaces, and returns a query with no tokens (empty or
all-whitespace) unchanged. -/
theorem escape_fts5_quoting (q : String) :
    escape_fts5 q =
      (if (pySplit q).isEmpty then q
       else String.intercalate " " ((pySplit q).map (fun t =>
         String.mk ('"' :: t.data.flatMap (fun c => if c = '"' then ['"', '"'] else [c])
           ++ ['"'])))) ∧
    (pySplit q = [] ↔ ∀ c ∈ q.data, c.isWhitespace) := by
  constructor
  · unfold escape_fts5
    simp only [quote_token_eq]
  · simpa using splitWsAux_eq_nil_iff q.data []

/-- Concrete summary row for witnesses. -/
def sumR : SummaryRow :=
  { session_id := "s1", summary_text := "did things", key_decisions := some "[]",
    files_touched := none, commands_run := none, outcome := some "completed",
    generated_at := some 7, generator_model := some "haiku" }

/-- Witness for tier_L2_iff_summary_row at a concrete state and op list. -/
theorem tier_L2_iff_summary_row_witness :
    tierInvariant { sessions := [sessA], summaries := [] } ∧
    (tierInvariant (runSummaryOps { sessions := [sessA], summaries := [] }
        [SummaryOp.upsert sumR, SummaryOp.del "s1"]) ∧
      (∀ r, upsert_summary { sessions := [sessA], summaries := [] } r = none →
        summaryStep { sessions := [sessA], summaries := [] } (.upsert r)
          = { sessions := [sessA], summaries := [] }) ∧
      (∀ sid, (delete_summary { sessions := [sessA], summaries := [] } sid).2 = false →
        (delete_summary { sessions := [sessA], summaries := [] } sid).1
          = { sessions := [sessA], summaries := [] })) :=
  ⟨by decide, tier_L2_iff_summary_row { sessions := [sessA], summaries := [] }
    [SummaryOp.upsert sumR, SummaryOp.del "s1"] (by decide)⟩

/-- Claim C2 (amended): completing the daily pipeline writes BOTH sentinels,
the daily date sentinel and then the promote cooldown sentinel (auto.py
lines 473-474), while a completed standalone promote run writes only the
promote sentinel and never touches the daily one. -/
theorem daily_pipeline_sentinel_effects (today : String) (now : ℚ) (st : SentinelState) :
    daily_auto_process_sentinels today now st
      = { lastDailyAuto := some today, lastPromoteRun := some now } ∧
    (promote_background_sentinels now st).lastDailyAuto = st.lastDailyAuto := by
  constructor
  · rfl
  · unfold promote_background_sentinels
    by_cases h : should_promote now st = true
    · rw [if_pos h]
      rfl
    · rw [if_neg h]

/-- Counterexample to claim C2 as stated: the promote cooldown sentinel is
not written only by standalone promote runs — starting with no sentinel
files, a completed daily pipeline run leaves .last_promote_run set. -/
theorem daily_pipeline_writes_promote_sentinel :
    (daily_auto_process_sentinels "2026-10-12" 1000
        { lastDailyAuto := none, lastPromoteRun := none }).lastPromoteRun = some 1000 ∧
    (SentinelState.mk none none).lastPromoteRun = none :=
  ⟨rfl, rfl⟩

/-- Claim C5: in the candidate loop of promote_project_knowledge, for every
parsed candidate with confidence at least 0.5: if some entry of the pre-loop
snapshot of non-superseded project knowledge has word-level Jaccard
similarity at least 0.7 with the candidate content, the first such entry is
confirmed — its evidence_count grows by exactly 1, last_confirmed_at is set
to now, and confidence becomes max(old, new), never decreasing — and no new
row is inserted; otherwise a new row with evidence_count 1 is inserted. -/
theorem promote_candidate_confirm_or_insert
    (existing : List KnowledgeRow) (pp : String) (sids : List String) (now : Int)
    (st : KnowledgeDB × List KnowledgeRow) (c : Candidate)
    (hconf : (1:ℚ)/2 ≤ c.confidence) :
    ((∃ ex ∈ existing, (7:ℚ)/10 ≤ word_similarity c.content ex.content) ↔
      (find_similar existing c.content).isSome = true) ∧
    (∀ m, find_similar existing c.content = some m →
      (process_candidate existing pp sids now st c).1.rows.length = st.1.rows.length ∧
      (∀ r ∈ st.1.rows, r.id ≠ m.id →
        r ∈ (process_candidate existing pp sids now st c).1.rows) ∧
      (∀ r ∈ st.1.rows, r.id = m.id →
        ∃ r' ∈ (process_candidate existing pp sids now st c).1.rows,
          r'.evidence_count = r.evidence_count + 1 ∧
          r'.last_confirmed_at = now ∧
          r'.confidence = max r.confidence c.confidence ∧
          r.confidence ≤ r'.confidence ∧
          r.evidence_count < r'.evidence_count)) ∧
    (find_similar existing c.content = none →
      ∃ nr, (process_candidate existing pp sids now st c).1.rows
          = st.1.rows ++ [nr] ∧
        nr.evidence_count = 1 ∧
        nr.content = c.content ∧
        nr.knowledge_type = c.knowledge_type ∧
        nr.confidence = c.confidence ∧
        nr.superseded_by = none) := by
  have hgate : ¬(c.confidence < 1/2) := not_lt.2 hconf
  refine ⟨?_, ?_, ?_⟩
  · simp [find_similar, List.find?_isSome]
  · intro m hm
    have hstep : process_candidate existing pp sids now st c
        = ({ st.1 with rows := confirm_knowledge st.1.rows m.id (some c.confidence) now },
           st.2 ++ [m]) := by
      unfold process_candidate
      rw [if_neg hgate, hm]
    rw [hstep]
    refine ⟨List.length_map _ _, ?_, ?_⟩
    · intro r hr hrid
      exact List.mem_map.2 ⟨r, hr, by rw [if_neg (by simp [hrid])]⟩
    · intro r hr hrid
      have hcond : (r.id == m.id) = true := by simp [hrid]
      refine ⟨_, List.mem_map.2 ⟨r, hr, rfl⟩, ?_⟩
      rw [if_pos hcond]
      exact ⟨rfl, rfl, rfl, le_max_left _ _, lt_add_one _⟩
  · intro hnone
    have hstep : process_candidate existing pp sids now st c
        = ({ rows := st.1.rows ++ [inserted_row pp sids now st.1.nextId c]
             nextId := st.1.nextId + 1 },
           st.2 ++ [inserted_row pp sids now st.1.nextId c]) := by
      unfold process_candidate
      rw [if_neg hgate, hnone]
    rw [hstep]
    exact ⟨inserted_row pp sids now st.1.nextId c, rfl, rfl, rfl, rfl, rfl, rfl⟩

/-- Concrete stored knowledge row for the promote witness. -/
def kRowA : KnowledgeRow :=
  { id := 1, project_path := "/p", knowledge_type := "pattern",
    content := "Use chmod 600 for netplan", confidence := 3/5,
    evidence_count := 1, source_sessions := ["s1"], first_seen_at := 10,
    last_confirmed_at := 10, superseded_by := none }

/-- Concrete candidate similar to kRowA (Jaccard 5/6). -/
def candB : Candidate :=
  { knowledge_type := "pattern",
    content := "use chmod 600 for netplan configs", confidence := 4/5 }

/-- Witness for promote_candidate_confirm_or_insert at a concrete snapshot,
state and candidate. -/
theorem promote_candidate_confirm_or_insert_witness :
    (1:ℚ)/2 ≤ candB.confidence ∧
    (((∃ ex ∈ [kRowA], (7:ℚ)/10 ≤ word_similarity candB.content ex.content) ↔
      (find_similar [kRowA] candB.content).isSome = true) ∧
    (∀ m, find_similar [kRowA] candB.content = some m →
      (process_candidate [kRowA] "/p" ["s1"] 20 ({ rows := [kRowA], nextId := 2 }, [])
        candB).1.rows.length = ({ rows := [kRowA], nextId := 2 } : KnowledgeDB).rows.length ∧
      (∀ r ∈ ({ rows := [kRowA], nextId := 2 } : KnowledgeDB).rows, r.id ≠ m.id →
        r ∈ (process_candidate [kRowA] "/p" ["s1"] 20
          ({ rows := [kRowA], nextId := 2 }, []) candB).1.rows) ∧
      (∀ r ∈ ({ rows := [kRowA], nextId := 2 } : KnowledgeDB).rows, r.id = m.id →
        ∃ r' ∈ (process_candidate [kRowA] "/p" ["s1"] 20
            ({ rows := [kRowA], nextId := 2 }, []) candB).1.rows,
          r'.evidence_count = r.evidence_count + 1 ∧
          r'.last_confirmed_at = 20 ∧
          r'.confidence = max r.confidence candB.confidence ∧
          r.confidence ≤ r'.confidence ∧
          r.evidence_count < r'.evidence_count)) ∧
    (find_similar [kRowA] candB.content = none →
      ∃ nr, (process_candidate [kRowA] "/p" ["s1"] 20
          ({ rows := [kRowA], nextId := 2 }, []) candB).1.rows
          = ({ rows := [kRowA], nextId := 2 } : KnowledgeDB).rows ++ [nr] ∧
        nr.evidence_count = 1 ∧
        nr.content = candB.content ∧
        nr.knowledge_type = candB.knowledge_type ∧
        nr.confidence = candB.confidence ∧
        nr.superseded_by = none)) :=
  ⟨by norm_num [candB],
   promote_candidate_confirm_or_insert [kRowA] "/p" ["s1"] 20
     ({ rows := [kRowA], nextId := 2 }, []) candB (by norm_num [candB])⟩

/-- Claim C1 (code behavior at the failing input): the candidate loop of
promote_project_knowledge returns a bare list of knowledge rows — here a
one-element list — not a record with entries/confirmed/new fields, so the
field accesses in daily_auto_process and auto_process have nothing to read. -/
theorem promote_returns_bare_list :
    (promote_loop [] "/p" ["s1", "s2"] 50 { rows := [], nextId := 1 }
        [{ knowledge_type := "pattern", content := "Use chmod 600 for netplan",
           confidence := 3/5 }]).2
      = [{ id := 1, project_path := "/p", knowledge_type := "pattern",
           content := "Use chmod 600 for netplan", confidence := 3/5,
           evidence_count := 1, source_sessions := ["s1", "s2"],
           first_seen_at := 50, last_confirmed_at := 50, superseded_by := none }] := by
  norm_num [promote_loop, process_candidate, find_similar, inserted_row]

/-- Helper: the conflict-update map function preserves each row's id. -/
theorem upsertFun_id (s x : SessionRow) :
    (if x.id == s.id then conflictUpdate x s else x).id = x.id := by
  by_cases h : (x.id == s.id) = true
  · rw [if_pos h]
    rfl
  · rw [if_neg h]

/-- Helper: upsert_session does not change what find? sees at any other id. -/
theorem find?_upsert_other {tbl : List SessionRow} {s : SessionRow} {qid : String}
    (hne : s.id ≠ qid) :
    (upsert_session tbl s).find? (fun r => r.id == qid)
      = tbl.find? (fun r => r.id == qid) := by
  unfold upsert_session
  by_cases hany : tbl.any (fun r => r.id == s.id) = true
  · rw [if_pos hany]
    rw [find?_map_of_pred_eq (fun r => r.id == qid)
          (fun x => if x.id == s.id then conflictUpdate x s else x)
          (fun x => by
            show ((if x.id == s.id then conflictUpdate x s else x).id == qid)
              = (x.id == qid)
            rw [upsertFun_id]) tbl]
    cases hf : tbl.find? (fun r => r.id == qid) with
    | none => rfl
    | some e =>
      have hp := pred_of_find?_eq_some hf
      simp only [beq_iff_eq] at hp
      have hcond : (e.id == s.id) = false := by
        rw [hp]
        exact beq_eq_false_iff_ne.2 (fun hc => hne hc.symm)
      simp only [Option.map_some']
      rw [if_neg (by simp [hcond])]
  · rw [if_neg hany]
    rw [List.find?_append]
    cases hf : tbl.find? (fun r => r.id == qid) with
    | some e => rfl
    | none =>
      simp [List.find?, beq_eq_false_iff_ne.2 hne]

/-- Helper: right after upserting a parsed session, its status is
unchanged (the conflict update copies exactly the compared fields). -/
theorem session_status_upsert_self (tbl : List SessionRow) (p : SessionRow) :
    session_status (upsert_session tbl p) p = .unchanged := by
  unfold session_status upsert_session
  by_cases hany : tbl.any (fun r => r.id == p.id) = true
  · rw [if_pos hany]
    rw [find?_map_of_pred_eq (fun r => r.id == p.id)
          (fun x => if x.id == p.id then conflictUpdate x p else x)
          (fun x => by
            show ((if x.id == p.id then conflictUpdate x p else x).id == p.id)
              = (x.id == p.id)
            rw [upsertFun_id]) tbl]
    obtain ⟨e, he⟩ := Option.isSome_iff_exists.1
      (List.find?_isSome.2 (List.any_eq_true.1 hany))
    rw [he]
    have hp := pred_of_find?_eq_some he
    simp only [Option.map_some']
    rw [if_pos hp]
    simp [conflictUpdate]
  · rw [if_neg hany]
    rw [List.find?_append]
    have hnone : tbl.find? (fun r => r.id == p.id) = none := by
      rw [List.find?_eq_none]
      intro a ha hpa
      exact absurd (List.any_eq_true.2 ⟨a, ha, hpa⟩) hany
    rw [hnone]
    simp [List.find?]

/-- Helper: session_status only looks at find? under the parsed id. -/
theorem session_status_congr {s1 s2 : List SessionRow} {p : SessionRow}
    (h : s1.find? (fun r => r.id == p.id) = s2.find? (fun r => r.id == p.id)) :
    session_status s1 p = session_status s2 p := by
  unfold session_status
  rw [h]

/-- Helper: a single ingest step leaves find? at an id untouched when the
file is skipped or carries a different id. -/
theorem ingest_file_find?_other (acc : IngestDB × IngestResult)
    (po : Option ParsedSession) (qid : String)
    (h : ∀ p : ParsedSession, po = some p → p.meta.user_message_count ≠ 0 →
      p.meta.id ≠ qid) :
    (ingest_file acc po).1.sessions.find? (fun r => r.id == qid)
      = acc.1.sessions.find? (fun r => r.id == qid) := by
  cases po with
  | none => rfl
  | some p =>
    by_cases humc : p.meta.user_message_count = 0
    · simp [ingest_file, humc]
    · have hne := h p rfl humc
      cases hst : session_status acc.1.sessions p.meta with
      | unchanged => simp [ingest_file, humc, hst]
      | new =>
        simp only [ingest_file, humc, if_false, hst]
        exact find?_upsert_other hne
      | updated =>
        simp only [ingest_file, humc, if_false, hst]
        exact find?_upsert_other hne

/-- Helper: the ingest fold leaves find? at an id untouched when no
effective file carries that id. -/
theorem ingest_foldl_find?_other :
    ∀ (files : List (Option ParsedSession)) (acc : IngestDB × IngestResult)
      (qid : String), qid ∉ effective_ids files →
      (files.foldl ingest_file acc).1.sessions.find? (fun r => r.id == qid)
        = acc.1.sessions.find? (fun r => r.id == qid) := by
  intro files
  induction files with
  | nil =>
    intro acc qid _
    rfl
  | cons po rest ih =>
    intro acc qid hq
    have hq_rest : qid ∉ effective_ids rest := by
      intro hmem
      apply hq
      unfold effective_ids at *
      rw [List.filterMap_cons]
      cases po with
      | none => exact hmem
      | some p =>
        by_cases humc : p.meta.user_message_count = 0
        · simpa [humc] using hmem
        · simp only [humc, if_false]
          exact List.mem_cons_of_mem _ hmem
    rw [List.foldl_cons, ih (ingest_file acc po) qid hq_rest]
    apply ingest_file_find?_other
    intro p hp humc
    intro hid
    apply hq
    unfold effective_ids
    rw [List.filterMap_cons]
    subst hp
    simp [humc, hid]

/-- Helper: a fold over files whose effective sessions are all already
unchanged does nothing at all. -/
theorem ingest_foldl_all_unchanged :
    ∀ (files : List (Option ParsedSession)) (st : IngestDB) (res : IngestResult),
      (∀ p : ParsedSession, some p ∈ files → p.meta.user_message_count ≠ 0 →
        session_status st.sessions p.meta = .unchanged) →
      files.foldl ingest_file (st, res) = (st, res) := by
  intro files
  induction files with
  | nil =>
    intro st res _
    rfl
  | cons po rest ih =>
    intro st res h
    have hstep : ingest_file (st, res) po = (st, res) := by
      cases po with
      | none => rfl
      | some p =>
        by_cases humc : p.meta.user_message_count = 0
        · simp [ingest_file, humc]
        · have hst := h p (List.mem_cons_self _ _) humc
          simp [ingest_file, humc, hst]
    rw [List.foldl_cons, hstep]
    exact ih st res (fun p hp humc => h p (List.mem_cons_of_mem _ hp) humc)

/-- Helper: dropping the head file keeps the effective id list Nodup. -/
theorem effective_ids_cons_nodup {po : Option ParsedSession}
    {rest : List (Option ParsedSession)}
    (h : (effective_ids (po :: rest)).Nodup) : (effective_ids rest).Nodup := by
  cases po with
  | none => simpa [effective_ids, List.filterMap_cons] using h
  | some p =>
    by_cases humc : p.meta.user_message_count = 0
    · simpa [effective_ids, List.filterMap_cons, humc] using h
    · have h' : (p.meta.id :: effective_ids rest).Nodup := by
        simpa [effective_ids, List.filterMap_cons, humc] using h
      exact (List.nodup_cons.1 h').2

/-- Helper: after one ingest run with pairwise-distinct effective ids, every
effective parsed session compares unchanged against the store. -/
theorem ingest_foldl_settles :
    ∀ (files : List (Option ParsedSession)) (acc : IngestDB × IngestResult),
      (effective_ids files).Nodup →
      ∀ p : ParsedSession, some p ∈ files → p.meta.user_message_count ≠ 0 →
        session_status (files.foldl ingest_file acc).1.sessions p.meta
          = .unchanged := by
  intro files
  induction files with
  | nil =>
    intro acc _ p hp
    exact absurd hp (List.not_mem_nil _)
  | cons po rest ih =>
    intro acc hnd p hp humc
    rcases List.mem_cons.1 hp with hhead | htail
    · have hpo : po = some p := hhead.symm
      subst hpo
      have heff : effective_ids (some p :: rest)
          = p.meta.id :: effective_ids rest := by
        unfold effective_ids
        rw [List.filterMap_cons]
        simp [humc]
      rw [heff] at hnd
      have hid_not : p.meta.id ∉ effective_ids rest := (List.nodup_cons.1 hnd).1
      rw [List.foldl_cons]
      have hcongr := ingest_foldl_find?_other rest (ingest_file acc (some p))
        p.meta.id hid_not
      rw [session_status_congr hcongr]
      cases hst : session_status acc.1.sessions p.meta with
      | unchanged =>
        have : ingest_file acc (some p) = acc := by
          simp [ingest_file, humc, hst]
        rw [this, hst]
      | new =>
        have : (ingest_file acc (some p)).1.sessions
            = upsert_session acc.1.sessions p.meta := by
          simp [ingest_file, humc, hst]
        rw [this]
        exact session_status_upsert_self _ _
      | updated =>
        have : (ingest_file acc (some p)).1.sessions
            = upsert_session acc.1.sessions p.meta := by
          simp [ingest_file, humc, hst]
        rw [this]
        exact session_status_upsert_self _ _
    · rw [List.foldl_cons]
      exact ih (ingest_file acc po) (effective_ids_cons_nodup hnd) p htail humc

/-- Claim C7 (amended): when the effective parse results carry pairwise
distinct session ids, auto_ingest is idempotent on an unchanged filesystem:
the second run reports no new and no updated session ids, the store is
unchanged, and in particular the messages table has the same number of rows
after the second run as after the first. -/
theorem auto_ingest_idempotent (db : IngestDB) (files : List (Option ParsedSession))
    (hnd : (effective_ids files).Nodup) :
    (auto_ingest (auto_ingest db files).1 files).2.new_session_ids = [] ∧
    (auto_ingest (auto_ingest db files).1 files).2.updated_session_ids = [] ∧
    (auto_ingest (auto_ingest db files).1 files).1 = (auto_ingest db files).1 ∧
    (auto_ingest (auto_ingest db files).1 files).1.messages.length
      = (auto_ingest db files).1.messages.length := by
  have hsettle := ingest_foldl_settles files (db, emptyIngestResult) hnd
  have hrun : auto_ingest (auto_ingest db files).1 files
      = ((auto_ingest db files).1, emptyIngestResult) :=
    ingest_foldl_all_unchanged files _ _ (fun p hp humc => hsettle p hp humc)
  rw [hrun]
  exact ⟨rfl, rfl, rfl, rfl⟩

/-- Concrete parsed session for the ingest witnesses. -/
def pSess : ParsedSession :=
  { meta := sessA
    messages := [{ ordinal := 0, role := "user", content_type := "text",
                   content_text := "Fix the netplan permissions error",
                   content_json := none, tool_name := none,
                   token_count := 10, created_at := 100 }] }

/-- Witness for auto_ingest_idempotent on a one-file filesystem. -/
theorem auto_ingest_idempotent_witness :
    (effective_ids [some pSess]).Nodup ∧
    ((auto_ingest (auto_ingest { sessions := [], messages := [] } [some pSess]).1
        [some pSess]).2.new_session_ids = [] ∧
     (auto_ingest (auto_ingest { sessions := [], messages := [] } [some pSess]).1
        [some pSess]).2.updated_session_ids = [] ∧
     (auto_ingest (auto_ingest { sessions := [], messages := [] } [some pSess]).1
        [some pSess]).1
       = (auto_ingest { sessions := [], messages := [] } [some pSess]).1 ∧
     (auto_ingest (auto_ingest { sessions := [], messages := [] } [some pSess]).1
        [some pSess]).1.messages.length
       = (auto_ingest { sessions := [], messages := [] } [some pSess]).1.messages.length) :=
  ⟨by decide, auto_ingest_idempotent { sessions := [], messages := [] }
    [some pSess] (by decide)⟩

/-- Two parse results sharing one session id with different counters. -/
def pDup1 : ParsedSession :=
  { meta := { sessA with id := "d", message_count := 5 }
    messages := [] }

/-- Second parse result under the same id "d" with a different counter. -/
def pDup2 : ParsedSession :=
  { meta := { sessA with id := "d", message_count := 7 }
    messages := [] }

/-- Counterexample to claim C7 as stated: with two input files that parse to
the same session id but different counters (a filesystem that is unchanged
between the runs), the second auto_ingest run still reports updated
sessions. -/
theorem auto_ingest_second_run_not_empty :
    (auto_ingest (auto_ingest { sessions := [], messages := [] }
        [some pDup1, some pDup2]).1 [some pDup1, some pDup2]).2.updated_session_ids
      = ["d", "d"] ∧
    (["d", "d"] : List String) ≠ [] := by
  constructor
  · decide
  · decide

/-- Helper: inserting messages of another session leaves the filtered rows
of a session untouched. -/
theorem filter_insert_messages_other :
    ∀ (ms : List MessageRow) (tbl : List MessageRow) (i : String),
      (∀ m ∈ ms, m.session_id ≠ i) →
      (insert_messages tbl ms).filter (fun m => m.session_id == i)
        = tbl.filter (fun m => m.session_id == i) := by
  intro ms
  induction ms with
  | nil =>
    intro tbl i _
    rfl
  | cons m rest ih =>
    intro tbl i h
    have hmi : m.session_id ≠ i := h m (List.mem_cons_self _ _)
    have hrest : ∀ m' ∈ rest, m'.session_id ≠ i :=
      fun m' hm' => h m' (List.mem_cons_of_mem _ hm')
    show (insert_messages
        (if tbl.any (fun r => r.session_id == m.session_id && r.ordinal == m.ordinal)
         then tbl else tbl ++ [m]) rest).filter (fun r => r.session_id == i)
      = tbl.filter (fun r => r.session_id == i)
    by_cases hdup : tbl.any
        (fun r => r.session_id == m.session_id && r.ordinal == m.ordinal) = true
    · rw [if_pos hdup]
      exact ih tbl i hrest
    · rw [if_neg hdup]
      rw [ih (tbl ++ [m]) i hrest]
      rw [List.filter_append]
      simp [beq_eq_false_iff_ne.2 hmi]

/-- Helper: the ingest fold neither records an id nor touches its rows when
every input file under that id is discarded (parse failure or zero user
messages). -/
theorem ingest_foldl_avoids :
    ∀ (files : List (Option ParsedSession)) (acc : IngestDB × IngestResult)
      (i : String),
      (files.all (fun po =>
        match po with
        | none => true
        | some p => p.meta.id != i || p.meta.user_message_count == 0) = true) →
      ((i ∉ acc.2.new_session_ids →
          i ∉ (files.foldl ingest_file acc).2.new_session_ids) ∧
       (i ∉ acc.2.updated_session_ids →
          i ∉ (files.foldl ingest_file acc).2.updated_session_ids) ∧
       (files.foldl ingest_file acc).1.sessions.find? (fun r => r.id == i)
         = acc.1.sessions.find? (fun r => r.id == i) ∧
       (files.foldl ingest_file acc).1.messages.filter (fun m => m.session_id == i)
         = acc.1.messages.filter (fun m => m.session_id == i)) := by
  intro files
  induction files with
  | nil =>
    intro acc i _
    exact ⟨id, id, rfl, rfl⟩
  | cons po rest ih =>
    intro acc i hall
    rw [List.all_cons, Bool.and_eq_true] at hall
    obtain ⟨hpo, hrest⟩ := hall
    have hstep : (ingest_file acc po).2.new_session_ids = acc.2.new_session_ids ∧
        (ingest_file acc po).2.updated_session_ids = acc.2.updated_session_ids ∧
        (ingest_file acc po).1.sessions.find? (fun r => r.id == i)
          = acc.1.sessions.find? (fun r => r.id == i) ∧
        (ingest_file acc po).1.messages.filter (fun m => m.session_id == i)
          = acc.1.messages.filter (fun m => m.session_id == i) ∨
        (∃ j, j ≠ i ∧
          (ingest_file acc po).2.new_session_ids = acc.2.new_session_ids ++ [j] ∧
          (ingest_file acc po).2.updated_session_ids = acc.2.updated_session_ids ∧
          (ingest_file acc po).1.sessions.find? (fun r => r.id == i)
            = acc.1.sessions.find? (fun r => r.id == i) ∧
          (ingest_file acc po).1.messages.filter (fun m => m.session_id == i)
            = acc.1.messages.filter (fun m => m.session_id == i)) ∨
        (∃ j, j ≠ i ∧
          (ingest_file acc po).2.new_session_ids = acc.2.new_session_ids ∧
          (ingest_file acc po).2.updated_session_ids
            = acc.2.updated_session_ids ++ [j] ∧
          (ingest_file acc po).1.sessions.find? (fun r => r.id == i)
            = acc.1.sessions.find? (fun r => r.id == i) ∧
          (ingest_file acc po).1.messages.filter (fun m => m.session_id == i)
            = acc.1.messages.filter (fun m => m.session_id == i)) := by
      cases po with
      | none => exact Or.inl ⟨rfl, rfl, rfl, rfl⟩
      | some p =>
        by_cases humc : p.meta.user_message_count = 0
        · refine Or.inl ?_
          simp [ingest_file, humc]
        · have hne : p.meta.id ≠ i := by
            simp only [Bool.or_eq_true, bne_iff_ne, ne_eq, beq_iff_eq] at hpo
            rcases hpo with hid | hz
            · exact hid
            · exact absurd hz humc
          have hmsgs : ∀ m ∈ p.messages.map (fun m => m.to_row p.meta.id),
              m.session_id ≠ i := by
            intro m hm
            rcases List.mem_map.1 hm with ⟨m0, _, rfl⟩
            exact hne
          cases hst : session_status acc.1.sessions p.meta with
          | unchanged =>
            refine Or.inl ?_
            simp [ingest_file, humc, hst]
          | new =>
            have he : ingest_file acc (some p)
                = ({ sessions := upsert_session acc.1.sessions p.meta
                     messages := insert_messages acc.1.messages
                       (p.messages.map (fun m => m.to_row p.meta.id)) },
                   { acc.2 with
                     sessionsCount := acc.2.sessionsCount + 1
                     messagesCount := acc.2.messagesCount + p.messages.length
                     new_session_ids := acc.2.new_session_ids ++ [p.meta.id] }) := by
              simp [ingest_file, humc, hst]
            refine Or.inr (Or.inl ⟨p.meta.id, hne, ?_, ?_, ?_, ?_⟩) <;> rw [he]
            · exact find?_upsert_other hne
            · exact filter_insert_messages_other _ _ _ hmsgs
          | updated =>
            have he : ingest_file acc (some p)
                = ({ sessions := upsert_session acc.1.sessions p.meta
                     messages := insert_messages acc.1.messages
                       (p.messages.map (fun m => m.to_row p.meta.id)) },
                   { acc.2 with
                     updated_session_ids := acc.2.updated_session_ids ++ [p.meta.id] }) := by
              simp [ingest_file, humc, hst]
            refine Or.inr (Or.inr ⟨p.meta.id, hne, ?_, ?_, ?_, ?_⟩) <;> rw [he]
            · exact find?_upsert_other hne
            · exact filter_insert_messages_other _ _ _ hmsgs
    obtain ⟨h1, h2, h3, h4⟩ := ih (ingest_file acc po) i hrest
    rw [List.foldl_cons]
    rcases hstep with ⟨e1, e2, e3, e4⟩ | ⟨j, hj, e1, e2, e3, e4⟩ | ⟨j, hj, e1, e2, e3, e4⟩
    · exact ⟨fun hn => h1 (e1 ▸ hn), fun hn => h2 (e2 ▸ hn),
        by rw [h3, e3], by rw [h4, e4]⟩
    · refine ⟨fun hn => h1 ?_, fun hn => h2 (e2 ▸ hn), by rw [h3, e3], by rw [h4, e4]⟩
      rw [e1]
      simp only [List.mem_append, List.mem_singleton]
      rintro (hin | hji)
      · exact hn hin
      · exact hj hji.symm
    · refine ⟨fun hn => h1 (e1 ▸ hn), fun hn => h2 ?_, by rw [h3, e3], by rw [h4, e4]⟩
      rw [e2]
      simp only [List.mem_append, List.mem_singleton]
      rintro (hin | hji)
      · exact hn hin
      · exact hj hji.symm

/-- Claim C9: a parsed session with zero user messages (or an unparseable
file) is discarded before the status comparison: its id never enters
new_session_ids or updated_session_ids, its session row is never upserted
and no message row of it is inserted. -/
theorem ingest_discards_zero_user_sessions (db : IngestDB)
    (files : List (Option ParsedSession)) (i : String)
    (h : files.all (fun po =>
      match po with
      | none => true
      | some p => p.meta.id != i || p.meta.user_message_count == 0) = true) :
    i ∉ (auto_ingest db files).2.new_session_ids ∧
    i ∉ (auto_ingest db files).2.updated_session_ids ∧
    (auto_ingest db files).1.sessions.find? (fun r => r.id == i)
      = db.sessions.find? (fun r => r.id == i) ∧
    (auto_ingest db files).1.messages.filter (fun m => m.session_id == i)
      = db.messages.filter (fun m => m.session_id == i) := by
  obtain ⟨h1, h2, h3, h4⟩ := ingest_foldl_avoids files (db, emptyIngestResult) i h
  exact ⟨h1 (List.not_mem_nil _), h2 (List.not_mem_nil _), h3, h4⟩

/-- A parsed session with zero user messages, stored under an id whose
stored counters differ (so the status comparison would say updated). -/
def pZero : ParsedSession :=
  { meta := { sessA with id := "z", user_message_count := 0, message_count := 9 }
    messages := [{ ordinal := 0, role := "assistant", content_type := "text",
                   content_text := "bot noise", content_json := none,
                   tool_name := none, token_count := 1, created_at := 100 }] }

/-- Witness for ingest_discards_zero_user_sessions: the zero-user session is
not stored and not reported even though its counters differ from the stored
row. -/
theorem ingest_discards_zero_user_sessions_witness :
    ([some pZero].all (fun po =>
      match po with
      | none => true
      | some p => p.meta.id != "z" || p.meta.user_message_count == 0) = true) ∧
    ("z" ∉ (auto_ingest { sessions := [{ sessA with id := "z" }], messages := [] }
        [some pZero]).2.new_session_ids ∧
     "z" ∉ (auto_ingest { sessions := [{ sessA with id := "z" }], messages := [] }
        [some pZero]).2.updated_session_ids ∧
     (auto_ingest { sessions := [{ sessA with id := "z" }], messages := [] }
        [some pZero]).1.sessions.find? (fun r => r.id == "z")
       = [{ sessA with id := "z" }].find? (fun r => r.id == "z") ∧
     (auto_ingest { sessions := [{ sessA with id := "z" }], messages := [] }
        [some pZero]).1.messages.filter (fun m => m.session_id == "z")
       = ([] : List MessageRow).filter (fun m => m.session_id == "z")) :=
  ⟨by decide, ingest_discards_zero_user_sessions
    { sessions := [{ sessA with id := "z" }], messages := [] } [some pZero] "z"
    (by decide)⟩

/-- Helper: bump_entity preserves key fields and id and never decreases the
occurrence count. -/
theorem bump_entity_fields (ty v : String) (seen : Int) (x : EntityRow) :
    (bump_entity ty v seen x).entity_type = x.entity_type ∧
    (bump_entity ty v seen x).canonical_value = x.canonical_value ∧
    (bump_entity ty v seen x).id = x.id ∧
    x.occurrence_count ≤ (bump_entity ty v seen x).occurrence_count := by
  unfold bump_entity
  by_cases h : key_pred ty v x = true
  · rw [if_pos h]
    refine ⟨rfl, rfl, rfl, ?_⟩
    exact Int.le_of_lt (Int.lt_add_one_of_le le_rfl)
  · rw [if_neg h]
    exact ⟨rfl, rfl, rfl, le_rfl⟩

/-- Helper: bump_entity does not change any key predicate. -/
theorem bump_entity_pred (ty v : String) (seen : Int) (ty' v' : String)
    (x : EntityRow) :
    key_pred ty' v' (bump_entity ty v seen x) = key_pred ty' v' x := by
  obtain ⟨h1, h2, _, _⟩ := bump_entity_fields ty v seen x
  unfold key_pred
  rw [h1, h2]

/-- Helper: bump_entity increments the count of a row with the key. -/
theorem bump_entity_bumps (ty v : String) (seen : Int) (x : EntityRow)
    (h : key_pred ty v x = true) :
    (bump_entity ty v seen x).occurrence_count = x.occurrence_count + 1 := by
  unfold bump_entity
  rw [if_pos h]

/-- Helper: upsert_entity never touches the occurrences table. -/
theorem upsert_entity_occ (st : EntityDB) (ty v : String) (seen : Int) :
    (upsert_entity st ty v seen).2.occurrences = st.occurrences := by
  unfold upsert_entity
  cases hf : st.entities.find? (key_pred ty v) with
  | none => rfl
  | some e => rfl

/-- Helper: find_entity after upsert_entity — monotone in count, id stable,
and exactly one increment at the upserted key. -/
theorem find_entity_upsert {st : EntityDB} (ty v ty' v' : String) (seen : Int)
    {e : EntityRow} (h : find_entity st ty' v' = some e) :
    ∃ e', find_entity (upsert_entity st ty v seen).2 ty' v' = some e' ∧
      e'.id = e.id ∧ e.occurrence_count ≤ e'.occurrence_count ∧
      (key_pred ty v e = true →
        e'.occurrence_count = e.occurrence_count + 1) := by
  unfold find_entity at h ⊢
  unfold upsert_entity
  cases hf : st.entities.find? (key_pred ty v) with
  | some e0 =>
    refine ⟨bump_entity ty v seen e, ?_, (bump_entity_fields ty v seen e).2.2.1,
      (bump_entity_fields ty v seen e).2.2.2,
      fun hk => bump_entity_bumps ty v seen e hk⟩
    show (st.entities.map (bump_entity ty v seen)).find? (key_pred ty' v')
      = some (bump_entity ty v seen e)
    rw [find?_map_of_pred_eq (key_pred ty' v') (bump_entity ty v seen)
          (fun x => bump_entity_pred ty v seen ty' v' x) st.entities]
    rw [h]
    rfl
  | none =>
    refine ⟨e, ?_, rfl, le_rfl, fun hk => ?_⟩
    · show (st.entities ++ _).find? (key_pred ty' v') = some e
      rw [List.find?_append, h]
      rfl
    · exact absurd hk (List.find?_eq_none.1 hf e (List.mem_of_find?_eq_some h))

/-- Helper: insert_entity_occurrence leaves the entities table unchanged. -/
theorem insert_occ_entities (st : EntityDB) (eid : Int) (sid : String)
    (mid : Int) (ctx : String) :
    (insert_entity_occurrence st eid sid mid ctx).entities = st.entities := by
  unfold insert_entity_occurrence
  by_cases h : st.occurrences.any
      (fun o => o.entity_id == eid && o.message_id == mid) = true
  · rw [if_pos h]
  · rw [if_neg h]

/-- Helper: insert_entity_occurrence only grows the occurrences table. -/
theorem insert_occ_superset (st : EntityDB) (eid : Int) (sid : String)
    (mid : Int) (ctx : String) :
    ∀ o ∈ st.occurrences,
      o ∈ (insert_entity_occurrence st eid sid mid ctx).occurrences := by
  unfold insert_entity_occurrence
  by_cases h : st.occurrences.any
      (fun o => o.entity_id == eid && o.message_id == mid) = true
  · rw [if_pos h]
    exact fun o ho => ho
  · rw [if_neg h]
    exact fun o ho => List.mem_append.2 (Or.inl ho)

/-- Helper: one process_entity step — find mono, with an increment when the
processed entity carries the key. -/
theorem find_entity_process (sid : String) (mid seen : Int)
    {a : EntityDB × Int} (ent : ExtractedEntity) {ty' v' : String} {e : EntityRow}
    (h : find_entity a.1 ty' v' = some e) :
    ∃ e', find_entity (process_entity sid mid seen a ent).1 ty' v' = some e' ∧
      e'.id = e.id ∧ e.occurrence_count ≤ e'.occurrence_count ∧
      (key_pred ent.entity_type ent.value e = true →
        e.occurrence_count + 1 ≤ e'.occurrence_count) := by
  obtain ⟨e', he', hid, hle, hbump⟩ :=
    find_entity_upsert ent.entity_type ent.value ty' v' seen h
  refine ⟨e', ?_, hid, hle, fun hk => le_of_eq (hbump hk).symm⟩
  show find_entity (insert_entity_occurrence _ _ _ _ _) ty' v' = some e'
  unfold find_entity
  rw [insert_occ_entities]
  exact he'

/-- Helper: one process_entity step only grows the occurrences table. -/
theorem process_occ_superset (sid : String) (mid seen : Int)
    (a : EntityDB × Int) (ent : ExtractedEntity) :
    ∀ o ∈ a.1.occurrences, o ∈ (process_entity sid mid seen a ent).1.occurrences := by
  intro o ho
  apply insert_occ_superset
  rw [upsert_entity_occ]
  exact ho

/-- Helper: find mono through the inner entity fold. -/
theorem find_entity_entfold (sid : String) (mid seen : Int) :
    ∀ (ents : List ExtractedEntity) (a : EntityDB × Int) {ty v : String}
      {e : EntityRow}, find_entity a.1 ty v = some e →
      ∃ e', find_entity ((ents.foldl (process_entity sid mid seen) a)).1 ty v
          = some e' ∧ e'.id = e.id ∧ e.occurrence_count ≤ e'.occurrence_count := by
  intro ents
  induction ents with
  | nil =>
    intro a ty v e h
    exact ⟨e, h, rfl, le_rfl⟩
  | cons ent rest ih =>
    intro a ty v e h
    obtain ⟨e1, h1, hid1, hle1, _⟩ := find_entity_process sid mid seen ent h
    obtain ⟨e2, h2, hid2, hle2⟩ := ih (process_entity sid mid seen a ent) h1
    exact ⟨e2, h2, hid2.trans hid1, hle1.trans hle2⟩

/-- Helper: the inner fold strictly increases the count of a key that one
of its entities carries. -/
theorem find_entity_entfold_strict (sid : String) (mid seen : Int) :
    ∀ (ents : List ExtractedEntity) (a : EntityDB × Int) {ty v : String}
      {e : EntityRow} {ent : ExtractedEntity},
      ent ∈ ents → ent.entity_type = ty → ent.value = v →
      find_entity a.1 ty v = some e →
      ∃ e', find_entity ((ents.foldl (process_entity sid mid seen) a)).1 ty v
          = some e' ∧ e.occurrence_count < e'.occurrence_count := by
  intro ents
  induction ents with
  | nil =>
    intro a ty v e ent hmem
    exact absurd hmem (List.not_mem_nil _)
  | cons ent0 rest ih =>
    intro a ty v e ent hmem hty hv h
    rcases List.mem_cons.1 hmem with heq | htail
    · subst heq
      have hkey : key_pred ent.entity_type ent.value e = true := by
        have hp := pred_of_find?_eq_some (show _ = some e from h)
        rw [hty, hv]
        exact hp
      obtain ⟨e1, h1, _, _, hb⟩ := find_entity_process sid mid seen ent h
      obtain ⟨e2, h2, _, hle2⟩ := find_entity_entfold sid mid seen rest _ h1
      exact ⟨e2, h2, lt_of_lt_of_le (Int.lt_of_lt_of_le
        (Int.lt_add_one_of_le le_rfl) (hb hkey)) hle2⟩
    · obtain ⟨e1, h1, _, hle1, _⟩ := find_entity_process sid mid seen ent0 h
      obtain ⟨e2, h2, hlt⟩ := ih _ htail hty hv h1
      exact ⟨e2, h2, lt_of_le_of_lt hle1 hlt⟩

/-- Helper: an eligible message reduces extract_for_message to the inner
fold. -/
theorem extract_for_message_eligible (extract : String → List ExtractedEntity)
    (sid : String) (acc : EntityDB × Int) (m : StoredMessage)
    (hrole : m.role = "user" ∨ m.role = "assistant")
    (htext : m.content_text ≠ "") :
    extract_for_message extract sid acc m
      = (extract m.content_text).foldl (process_entity sid m.id m.created_at) acc := by
  unfold extract_for_message
  have hc : ¬(m.role ≠ "user" ∧ m.role ≠ "assistant") := by
    rcases hrole with h | h
    · exact fun hcon => hcon.1 h
    · exact fun hcon => hcon.2 h
  rw [if_neg hc, if_neg htext]

/-- Helper: find mono through one message step. -/
theorem find_entity_msgstep (extract : String → List ExtractedEntity)
    (sid : String) (m : StoredMessage) (acc : EntityDB × Int)
    {ty v : String} {e : EntityRow} (h : find_entity acc.1 ty v = some e) :
    ∃ e', find_entity (extract_for_message extract sid acc m).1 ty v = some e' ∧
      e'.id = e.id ∧ e.occurrence_count ≤ e'.occurrence_count := by
  unfold extract_for_message
  by_cases h1 : m.role ≠ "user" ∧ m.role ≠ "assistant"
  · rw [if_pos h1]
    exact ⟨e, h, rfl, le_rfl⟩
  · rw [if_neg h1]
    by_cases h2 : m.content_text = ""
    · rw [if_pos h2]
      exact ⟨e, h, rfl, le_rfl⟩
    · rw [if_neg h2]
      exact find_entity_entfold sid m.id m.created_at _ acc h

/-- Helper: find mono through the message fold. -/
theorem find_entity_msgfold (extract : String → List ExtractedEntity)
    (sid : String) :
    ∀ (msgs : List StoredMessage) (acc : EntityDB × Int) {ty v : String}
      {e : EntityRow}, find_entity acc.1 ty v = some e →
      ∃ e', find_entity ((msgs.foldl (extract_for_message extract sid) acc)).1
          ty v = some e' ∧ e'.id = e.id ∧
          e.occurrence_count ≤ e'.occurrence_count := by
  intro msgs
  induction msgs with
  | nil =>
    intro acc ty v e h
    exact ⟨e, h, rfl, le_rfl⟩
  | cons m rest ih =>
    intro acc ty v e h
    obtain ⟨e1, h1, hid1, hle1⟩ := find_entity_msgstep extract sid m acc h
    obtain ⟨e2, h2, hid2, hle2⟩ := ih (extract_for_message extract sid acc m) h1
    exact ⟨e2, h2, hid2.trans hid1, hle1.trans hle2⟩

/-- Helper: the message fold strictly increases the count of any key
matched by an eligible message. -/
theorem find_entity_msgfold_strict (extract : String → List ExtractedEntity)
    (sid : String) :
    ∀ (msgs : List StoredMessage) (acc : EntityDB × Int) {ty v : String}
      {e : EntityRow} {m : StoredMessage} {ent : ExtractedEntity},
      m ∈ msgs → (m.role = "user" ∨ m.role = "assistant") →
      m.content_text ≠ "" → ent ∈ extract m.content_text →
      ent.entity_type = ty → ent.value = v →
      find_entity acc.1 ty v = some e →
      ∃ e', find_entity ((msgs.foldl (extract_for_message extract sid) acc)).1
          ty v = some e' ∧ e.occurrence_count < e'.occurrence_count := by
  intro msgs
  induction msgs with
  | nil =>
    intro acc ty v e m ent hmem
    exact absurd hmem (List.not_mem_nil _)
  | cons m0 rest ih =>
    intro acc ty v e m ent hmem hrole htext hent hty hv h
    rcases List.mem_cons.1 hmem with heq | htail
    · subst heq
      have hstep := extract_for_message_eligible extract sid acc m hrole htext
      obtain ⟨e1, h1, hlt1⟩ := find_entity_entfold_strict sid m.id m.created_at
        (extract m.content_text) acc hent hty hv h
      rw [← hstep] at h1
      obtain ⟨e2, h2, _, hle2⟩ :=
        find_entity_msgfold extract sid rest (extract_for_message extract sid acc m) h1
      exact ⟨e2, h2, lt_of_lt_of_le hlt1 hle2⟩
    · obtain ⟨e1, h1, _, hle1⟩ := find_entity_msgstep extract sid m0 acc h
      obtain ⟨e2, h2, hlt⟩ := ih _ htail hrole htext hent hty hv h1
      exact ⟨e2, h2, lt_of_le_of_lt hle1 hlt⟩

/-- Helper: covered_entry survives a process_entity step. -/
theorem covered_entry_process (sid : String) (mid seen : Int)
    (a : EntityDB × Int) (ent : ExtractedEntity) {ty v : String} {mid' : Int}
    (h : covered_entry a.1 ty v mid') :
    covered_entry (process_entity sid mid seen a ent).1 ty v mid' := by
  obtain ⟨e, he, o, ho, hoid, homid⟩ := h
  obtain ⟨e', he', hid, _, _⟩ := find_entity_process sid mid seen ent he
  exact ⟨e', he', o, process_occ_superset sid mid seen a ent o ho,
    hoid.trans hid.symm, homid⟩

/-- Helper: covered_entry survives the inner entity fold. -/
theorem covered_entry_entfold (sid : String) (mid seen : Int) :
    ∀ (ents : List ExtractedEntity) (a : EntityDB × Int) {ty v : String}
      {mid' : Int}, covered_entry a.1 ty v mid' →
      covered_entry ((ents.foldl (process_entity sid mid seen) a)).1 ty v mid' := by
  intro ents
  induction ents with
  | nil =>
    intro a ty v mid' h
    exact h
  | cons ent rest ih =>
    intro a ty v mid' h
    exact ih _ (covered_entry_process sid mid seen a ent h)

/-- Helper: covered_entry survives a message step. -/
theorem covered_entry_msgstep (extract : String → List ExtractedEntity)
    (sid : String) (m : StoredMessage) (acc : EntityDB × Int)
    {ty v : String} {mid' : Int} (h : covered_entry acc.1 ty v mid') :
    covered_entry (extract_for_message extract sid acc m).1 ty v mid' := by
  unfold extract_for_message
  by_cases h1 : m.role ≠ "user" ∧ m.role ≠ "assistant"
  · rw [if_pos h1]
    exact h
  · rw [if_neg h1]
    by_cases h2 : m.content_text = ""
    · rw [if_pos h2]
      exact h
    · rw [if_neg h2]
      exact covered_entry_entfold sid m.id m.created_at _ acc h

/-- Helper: covered_entry survives the message fold. -/
theorem covered_entry_msgfold (extract : String → List ExtractedEntity)
    (sid : String) :
    ∀ (msgs : List StoredMessage) (acc : EntityDB × Int) {ty v : String}
      {mid' : Int}, covered_entry acc.1 ty v mid' →
      covered_entry ((msgs.foldl (extract_for_message extract sid) acc)).1
        ty v mid' := by
  intro msgs
  induction msgs with
  | nil =>
    intro acc ty v mid' h
    exact h
  | cons m rest ih =>
    intro acc ty v mid' h
    exact ih _ (covered_entry_msgstep extract sid m acc h)

/-- Helper: processing an entity establishes its own storage witness. -/
theorem covered_entry_process_self (sid : String) (mid seen : Int)
    (a : EntityDB × Int) (ent : ExtractedEntity) :
    covered_entry (process_entity sid mid seen a ent).1
      ent.entity_type ent.value mid := by
  have hup : ∃ eRow,
      find_entity (upsert_entity a.1 ent.entity_type ent.value seen).2
        ent.entity_type ent.value = some eRow ∧
      eRow.id = (upsert_entity a.1 ent.entity_type ent.value seen).1 := by
    unfold find_entity upsert_entity
    cases hf : a.1.entities.find? (key_pred ent.entity_type ent.value) with
    | some e0 =>
      refine ⟨bump_entity ent.entity_type ent.value seen e0, ?_,
        (bump_entity_fields ent.entity_type ent.value seen e0).2.2.1⟩
      show (a.1.entities.map (bump_entity ent.entity_type ent.value seen)).find?
          (key_pred ent.entity_type ent.value)
        = some (bump_entity ent.entity_type ent.value seen e0)
      rw [find?_map_of_pred_eq (key_pred ent.entity_type ent.value)
            (bump_entity ent.entity_type ent.value seen)
            (fun x => bump_entity_pred ent.entity_type ent.value seen
              ent.entity_type ent.value x) a.1.entities]
      rw [hf]
      rfl
    | none =>
      refine ⟨new_entity_row a.1.nextId ent.entity_type ent.value seen, ?_, rfl⟩
      show (a.1.entities ++ [new_entity_row a.1.nextId ent.entity_type ent.value seen]).find?
          (key_pred ent.entity_type ent.value)
        = some (new_entity_row a.1.nextId ent.entity_type ent.value seen)
      rw [List.find?_append, hf]
      simp [List.find?, key_pred, new_entity_row]
  obtain ⟨eRow, heRow, hidRow⟩ := hup
  refine ⟨eRow, ?_, ?_⟩
  · show find_entity (insert_entity_occurrence _ _ _ _ _) _ _ = some eRow
    unfold find_entity
    rw [insert_occ_entities]
    exact heRow
  · by_cases hdup : (upsert_entity a.1 ent.entity_type ent.value seen).2.occurrences.any
        (fun o => o.entity_id == (upsert_entity a.1 ent.entity_type ent.value seen).1
          && o.message_id == mid) = true
    · obtain ⟨o, ho, hoprop⟩ := List.any_eq_true.1 hdup
      rw [Bool.and_eq_true, beq_iff_eq, beq_iff_eq] at hoprop
      refine ⟨o, ?_, by rw [hoprop.1, hidRow], hoprop.2⟩
      show o ∈ (insert_entity_occurrence _ _ _ _ _).occurrences
      unfold insert_entity_occurrence
      rw [if_pos hdup]
      exact ho
    · refine ⟨{ entity_id := (upsert_entity a.1 ent.entity_type ent.value seen).1,
                session_id := sid, message_id := mid, context_snippet := ent.context },
        ?_, by rw [hidRow], rfl⟩
      show _ ∈ (insert_entity_occurrence _ _ _ _ _).occurrences
      unfold insert_entity_occurrence
      rw [if_neg hdup]
      exact List.mem_append.2 (Or.inr (List.mem_singleton.2 rfl))

/-- Helper: after the inner fold every entity of the list has its storage
witness. -/
theorem covered_entry_entfold_self (sid : String) (mid seen : Int) :
    ∀ (ents : List ExtractedEntity) (a : EntityDB × Int) (ent : ExtractedEntity),
      ent ∈ ents →
      covered_entry ((ents.foldl (process_entity sid mid seen) a)).1
        ent.entity_type ent.value mid := by
  intro ents
  induction ents with
  | nil =>
    intro a ent hmem
    exact absurd hmem (List.not_mem_nil _)
  | cons ent0 rest ih =>
    intro a ent hmem
    rcases List.mem_cons.1 hmem with heq | htail
    · subst heq
      exact covered_entry_entfold sid mid seen rest _
        (covered_entry_process_self sid mid seen a ent)
    · exact ih _ ent htail

/-- Helper: after one full extraction run, every eligible (message, entity)
hit has its storage witness. -/
theorem covered_after_msgfold (extract : String → List ExtractedEntity)
    (sid : String) :
    ∀ (msgs : List StoredMessage) (acc : EntityDB × Int)
      (m : StoredMessage) (ent : ExtractedEntity), m ∈ msgs →
      (m.role = "user" ∨ m.role = "assistant") → m.content_text ≠ "" →
      ent ∈ extract m.content_text →
      covered_entry ((msgs.foldl (extract_for_message extract sid) acc)).1
        ent.entity_type ent.value m.id := by
  intro msgs
  induction msgs with
  | nil =>
    intro acc m ent hmem
    exact absurd hmem (List.not_mem_nil _)
  | cons m0 rest ih =>
    intro acc m ent hmem hrole htext hent
    rcases List.mem_cons.1 hmem with heq | htail
    · subst heq
      apply covered_entry_msgfold extract sid rest
      rw [extract_for_message_eligible extract sid acc m hrole htext]
      exact covered_entry_entfold_self sid m.id m.created_at _ acc ent hent
    · exact ih _ m ent htail hrole htext hent

/-- Helper: cover_find survives a process_entity step. -/
theorem cover_find_process (sid : String) (mid seen : Int)
    (a : EntityDB × Int) (ent : ExtractedEntity) {st1 : EntityDB}
    (h : cover_find st1 a.1) :
    cover_find st1 (process_entity sid mid seen a ent).1 := by
  intro ty v e1 h1
  obtain ⟨e, he, hid⟩ := h ty v e1 h1
  obtain ⟨e', he', hid', _, _⟩ := find_entity_process sid mid seen ent he
  exact ⟨e', he', hid'.trans hid⟩

/-- Helper: a second-pass inner fold whose entities are all covered by st1
inserts no occurrence rows. -/
theorem entfold_occ_preserved (sid : String) (mid seen : Int) (st1 : EntityDB) :
    ∀ (ents : List ExtractedEntity) (a : EntityDB × Int),
      (∀ ent ∈ ents, covered_entry st1 ent.entity_type ent.value mid) →
      cover_find st1 a.1 → a.1.occurrences = st1.occurrences →
      ((ents.foldl (process_entity sid mid seen) a)).1.occurrences
          = st1.occurrences ∧
      cover_find st1 ((ents.foldl (process_entity sid mid seen) a)).1 := by
  intro ents
  induction ents with
  | nil =>
    intro a _ hcf hocc
    exact ⟨hocc, hcf⟩
  | cons ent rest ih =>
    intro a hcov hcf hocc
    obtain ⟨e1, he1, o, ho, hoid, homid⟩ := hcov ent (List.mem_cons_self _ _)
    obtain ⟨e, he, hid⟩ := hcf _ _ _ he1
    have hup_eq : upsert_entity a.1 ent.entity_type ent.value seen
        = (e.id,
           { a.1 with
             entities := a.1.entities.map (bump_entity ent.entity_type ent.value seen) }) := by
      unfold upsert_entity
      rw [show a.1.entities.find? (key_pred ent.entity_type ent.value) = some e from he]
    have hdup : ({ a.1 with
          entities := a.1.entities.map (bump_entity ent.entity_type ent.value seen)
        } : EntityDB).occurrences.any
        (fun o' => o'.entity_id == e.id && o'.message_id == mid) = true := by
      refine List.any_eq_true.2 ⟨o, ?_, ?_⟩
      · show o ∈ a.1.occurrences
        rw [hocc]
        exact ho
      · rw [Bool.and_eq_true, beq_iff_eq, beq_iff_eq]
        exact ⟨hoid.trans hid.symm, homid⟩
    have hstep_occ : (process_entity sid mid seen a ent).1.occurrences
        = st1.occurrences := by
      unfold process_entity
      rw [hup_eq]
      show (insert_entity_occurrence _ e.id sid mid ent.context).occurrences
        = st1.occurrences
      unfold insert_entity_occurrence
      rw [if_pos hdup]
      show ({ a.1 with
          entities := a.1.entities.map (bump_entity ent.entity_type ent.value seen)
        } : EntityDB).occurrences = st1.occurrences
      exact hocc
    exact ih (process_entity sid mid seen a ent)
      (fun ent' h' => hcov ent' (List.mem_cons_of_mem _ h'))
      (cover_find_process sid mid seen a ent hcf) hstep_occ

/-- Helper: a second-pass message step covered by st1 inserts no occurrence
rows. -/
theorem msgstep_occ_preserved (extract : String → List ExtractedEntity)
    (sid : String) (st1 : EntityDB) (m : StoredMessage) (acc : EntityDB × Int)
    (hcov : (m.role = "user" ∨ m.role = "assistant") → m.content_text ≠ "" →
      ∀ ent ∈ extract m.content_text,
        covered_entry st1 ent.entity_type ent.value m.id)
    (hcf : cover_find st1 acc.1) (hocc : acc.1.occurrences = st1.occurrences) :
    (extract_for_message extract sid acc m).1.occurrences = st1.occurrences ∧
    cover_find st1 (extract_for_message extract sid acc m).1 := by
  unfold extract_for_message
  by_cases h1 : m.role ≠ "user" ∧ m.role ≠ "assistant"
  · rw [if_pos h1]
    exact ⟨hocc, hcf⟩
  · rw [if_neg h1]
    by_cases h2 : m.content_text = ""
    · rw [if_pos h2]
      exact ⟨hocc, hcf⟩
    · rw [if_neg h2]
      have hrole : m.role = "user" ∨ m.role = "assistant" := by
        by_contra hcon
        push_neg at hcon
        exact h1 hcon
      exact entfold_occ_preserved sid m.id m.created_at st1 _ acc
        (hcov hrole h2) hcf hocc

/-- Helper: a second-pass message fold covered by st1 inserts no occurrence
rows. -/
theorem msgfold_occ_preserved (extract : String → List ExtractedEntity)
    (sid : String) (st1 : EntityDB) :
    ∀ (msgs : List StoredMessage) (acc : EntityDB × Int),
      (∀ m ∈ msgs, (m.role = "user" ∨ m.role = "assistant") →
        m.content_text ≠ "" → ∀ ent ∈ extract m.content_text,
          covered_entry st1 ent.entity_type ent.value m.id) →
      cover_find st1 acc.1 → acc.1.occurrences = st1.occurrences →
      ((msgs.foldl (extract_for_message extract sid) acc)).1.occurrences
        = st1.occurrences := by
  intro msgs
  induction msgs with
  | nil =>
    intro acc _ _ hocc
    exact hocc
  | cons m rest ih =>
    intro acc hcov hcf hocc
    obtain ⟨hocc', hcf'⟩ := msgstep_occ_preserved extract sid st1 m acc
      (hcov m (List.mem_cons_self _ _)) hcf hocc
    exact ih _ (fun m' h' => hcov m' (List.mem_cons_of_mem _ h')) hcf' hocc'

/-- Claim C10: re-running extract_entities_for_session on a session whose
entities were already extracted inserts no new entity_occurrences rows (the
insert-or-ignore on the (entity_id, message_id) key suppresses them), yet
upsert_entity still increments occurrence_count for every re-matched entity
key — so occurrence_count can strictly exceed the number of stored
occurrence rows, and repeated extraction is not idempotent on
occurrence_count. -/
theorem extract_twice_not_idempotent (extract : String → List ExtractedEntity)
    (sid : String) (msgs : List StoredMessage) (st0 : EntityDB) :
    (extract_entities_for_session extract true sid msgs
        (extract_entities_for_session extract true sid msgs st0).1).1.occurrences
      = (extract_entities_for_session extract true sid msgs st0).1.occurrences ∧
    (∀ ty v, matched extract msgs ty v →
      ∃ e1 e2,
        find_entity (extract_entities_for_session extract true sid msgs st0).1
          ty v = some e1 ∧
        find_entity (extract_entities_for_session extract true sid msgs
          (extract_entities_for_session extract true sid msgs st0).1).1
          ty v = some e2 ∧
        e1.occurrence_count < e2.occurrence_count) := by
  have hrun : ∀ st : EntityDB, extract_entities_for_session extract true sid msgs st
      = msgs.foldl (extract_for_message extract sid) (st, 0) := fun st => rfl
  constructor
  · rw [hrun, hrun]
    apply msgfold_occ_preserved extract sid
        (extract_entities_for_session extract true sid msgs st0).1 msgs _
    · intro m hm hrole htext ent hent
      rw [hrun]
      exact covered_after_msgfold extract sid msgs (st0, 0) m ent hm hrole htext hent
    · intro ty v e1 h1
      exact ⟨e1, h1, rfl⟩
    · rfl
  · rintro ty v ⟨m, hm, hrole, htext, ent, hent, hty, hv⟩
    have hcov : covered_entry (extract_entities_for_session extract true sid msgs st0).1
        ent.entity_type ent.value m.id := by
      rw [hrun]
      exact covered_after_msgfold extract sid msgs (st0, 0) m ent hm hrole htext hent
    obtain ⟨e1, he1, _⟩ := hcov
    rw [hty, hv] at he1
    obtain ⟨e2, he2, hlt⟩ := find_entity_msgfold_strict extract sid msgs
      ((extract_entities_for_session extract true sid msgs st0).1, 0)
      hm hrole htext hent hty hv he1
    refine ⟨e1, e2, he1, ?_, hlt⟩
    rw [hrun]
    exact he2

/-- A concrete extractor for the entity witnesses: the text "def foo"
yields one function entity. -/
def wExtract : String → List ExtractedEntity :=
  fun t =>
    if t = "def foo" then
      [{ entity_type := "function", value := "foo", context := "def foo" }]
    else []

/-- A concrete stored user message for the entity witnesses. -/
def wMsg : StoredMessage :=
  { id := 1, role := "user", content_text := "def foo", created_at := 100 }

/-- Witness for extract_twice_not_idempotent at a concrete session with one
matched entity key. -/
theorem extract_twice_not_idempotent_witness :
    ((extract_entities_for_session wExtract true "s1" [wMsg]
        (extract_entities_for_session wExtract true "s1" [wMsg]
          { entities := [], occurrences := [], nextId := 1 }).1).1.occurrences
      = (extract_entities_for_session wExtract true "s1" [wMsg]
          { entities := [], occurrences := [], nextId := 1 }).1.occurrences) ∧
    (∃ e1 e2,
      find_entity (extract_entities_for_session wExtract true "s1" [wMsg]
          { entities := [], occurrences := [], nextId := 1 }).1
        "function" "foo" = some e1 ∧
      find_entity (extract_entities_for_session wExtract true "s1" [wMsg]
          (extract_entities_for_session wExtract true "s1" [wMsg]
            { entities := [], occurrences := [], nextId := 1 }).1).1
        "function" "foo" = some e2 ∧
      e1.occurrence_count < e2.occurrence_count) := by
  obtain ⟨h1, h2⟩ := extract_twice_not_idempotent wExtract "s1" [wMsg]
    { entities := [], occurrences := [], nextId := 1 }
  refine ⟨h1, h2 "function" "foo" ?_⟩
  exact ⟨wMsg, List.mem_singleton.2 rfl, Or.inl rfl, by decide,
    { entity_type := "function", value := "foo", context := "def foo" },
    by decide, rfl, rfl⟩

/-- Helper: a foldl of max is at least its initial value. -/
theorem foldl_max_init_le : ∀ (l : List ℚ) (b : ℚ), b ≤ l.foldl max b := by
  intro l
  induction l with
  | nil =>
    intro b
    exact le_rfl
  | cons x xs ih =>
    intro b
    exact le_trans (le_max_left b x) (ih (max b x))

/-- Helper: a foldl of max dominates every list element. -/
theorem le_foldl_max : ∀ (l : List ℚ) (b a : ℚ), a ∈ l → a ≤ l.foldl max b := by
  intro l
  induction l with
  | nil =>
    intro b a h
    exact absurd h (List.not_mem_nil _)
  | cons x xs ih =>
    intro b a h
    rcases List.mem_cons.1 h with rfl | hx
    · exact le_trans (le_max_right b a) (foldl_max_init_le xs (max b a))
    · exact ih (max b x) a hx

/-- Helper: one grouping step keeps every rank nonnegative. -/
theorem group_step_nonneg (acc : List (String × ℚ × String)) (row : FtsRow)
    (h : ∀ e ∈ acc, 0 ≤ e.2.1) : ∀ e ∈ group_step acc row, 0 ≤ e.2.1 := by
  intro e he
  unfold group_step at he
  revert he
  cases hf : acc.find? (fun e => e.1 == row.session_id) with
  | none =>
    intro he
    rcases List.mem_append.1 he with hin | hin
    · exact h e hin
    · rw [List.mem_singleton.1 hin]
      exact abs_nonneg _
  | some e0 =>
    intro he
    have hstep : group_step acc row
        = if |row.rank| > e0.2.1 then
            acc.map (fun x =>
              if x.1 == row.session_id then
                (x.1, |row.rank|, row.content_text.take 200)
              else x)
          else acc := by
      unfold group_step
      rw [hf]
    rw [show (match some e0 with
        | none => acc ++ [(row.session_id, |row.rank|, row.content_text.take 200)]
        | some e =>
          if |row.rank| > e.2.1 then
            acc.map (fun x =>
              if x.1 == row.session_id then
                (x.1, |row.rank|, row.content_text.take 200)
              else x)
          else acc)
        = if |row.rank| > e0.2.1 then
            acc.map (fun x =>
              if x.1 == row.session_id then
                (x.1, |row.rank|, row.content_text.take 200)
              else x)
          else acc from rfl] at he
    by_cases hgt : |row.rank| > e0.2.1
    · rw [if_pos hgt] at he
      rcases List.mem_map.1 he with ⟨x, hx, rfl⟩
      by_cases hxs : (x.1 == row.session_id) = true
      · rw [if_pos hxs]
        exact abs_nonneg _
      · rw [if_neg hxs]
        exact h x hx
    · rw [if_neg hgt] at he
      exact h e he

/-- Helper: every grouped rank is an absolute value, hence nonnegative. -/
theorem group_fts_nonneg (rows : List FtsRow) :
    ∀ e ∈ group_fts rows, 0 ≤ e.2.1 := by
  suffices h : ∀ (rows : List FtsRow) (acc : List (String × ℚ × String)),
      (∀ e ∈ acc, 0 ≤ e.2.1) →
      ∀ e ∈ rows.foldl group_step acc, 0 ≤ e.2.1 by
    exact h rows [] (fun e he => absurd he (List.not_mem_nil _))
  intro rows
  induction rows with
  | nil =>
    intro acc h
    exact h
  | cons row rest ih =>
    intro acc h
    exact ih (group_step acc row) (group_step_nonneg acc row h)

/-- Helper: every grouped rank divided by the (pre-filter) maximum is at
most 1. -/
theorem grouped_norm_le_one (rows : List FtsRow) :
    ∀ e ∈ group_fts rows, e.2.1 / max_rank (group_fts rows) ≤ 1 := by
  intro e he
  have h0 : 0 ≤ e.2.1 := group_fts_nonneg rows e he
  have hle : e.2.1 ≤ ((group_fts rows).map (fun x => x.2.1)).foldl max 0 :=
    le_foldl_max _ 0 _ (List.mem_map.2 ⟨e, he, rfl⟩)
  unfold max_rank
  by_cases hm : ((group_fts rows).map (fun e => e.2.1)).foldl max 0 = 0
  · rw [if_pos hm]
    rw [hm] at hle
    have : e.2.1 = 0 := le_antisymm hle h0
    rw [this]
    norm_num
  · rw [if_neg hm]
    have hnn : (0:ℚ) ≤ ((group_fts rows).map (fun e => e.2.1)).foldl max 0 :=
      foldl_max_init_le _ 0
    have hpos : (0:ℚ) < ((group_fts rows).map (fun e => e.2.1)).foldl max 0 :=
      lt_of_le_of_ne hnn (Ne.symm hm)
    exact (div_le_one hpos).2 hle

/-- Helper: the recency factor is at most 1 (the age is clamped at 0, so
the exponent is nonpositive). -/
theorem recency_score_le_one (now epoch : ℚ) : recency_score now epoch ≤ 1 := by
  unfold recency_score
  apply Real.rpow_le_one_of_one_le_of_nonpos one_le_two
  have h0 : (0:ℚ) ≤ (if (now - epoch) / 86400 < 0 then 0
      else (now - epoch) / 86400) := by
    by_cases h : (now - epoch) / 86400 < 0
    · rw [if_pos h]
    · rw [if_neg h]
      exact le_of_not_lt h
  have h0' : (0:ℝ) ≤ (((if (now - epoch) / 86400 < 0 then 0
      else (now - epoch) / 86400 : ℚ)) : ℝ) := by
    exact_mod_cast h0
  linarith

/-- Helper: the importance factor is at most 1 (the weights sum to 1 and
each min-clamped factor is at most 1). -/
theorem importance_score_le_one (s : SessionRow) : importance_score s ≤ 1 := by
  unfold importance_score
  have h1 : min ((s.message_count : ℚ) / 100) 1 ≤ 1 := min_le_right _ _
  have h2 : min ((s.user_message_count : ℚ) / 20) 1 ≤ 1 := min_le_right _ _
  have h3 : min ((s.total_tokens : ℚ) / 200000) 1 ≤ 1 := min_le_right _ _
  have h4 : min ((s.compaction_count : ℚ) / 5) 1 ≤ 1 := min_le_right _ _
  linarith

/-- Helper: a scored result is bounded by 1 whenever its normalized bm25
is. -/
theorem score_session_score_le_one (now mr : ℚ) (s : SessionRow)
    (e : String × ℚ × String) (summary : Option String)
    (hnorm : e.2.1 / mr ≤ (1:ℚ)) :
    (score_session now mr s e summary).score ≤ 1 := by
  have ha : ((e.2.1 / mr : ℚ) : ℝ) ≤ 1 := by exact_mod_cast hnorm
  have hb : recency_score now (s.first_message_at : ℚ) ≤ 1 :=
    recency_score_le_one _ _
  have hc : ((importance_score s : ℚ) : ℝ) ≤ 1 := by
    exact_mod_cast importance_score_le_one s
  show ((e.2.1 / mr : ℚ) : ℝ) * (1/2)
      + recency_score now (s.first_message_at : ℚ) * (1/4)
      + ((importance_score s : ℚ) : ℝ) * (1/4) ≤ 1
  linarith

/-- Claim C6 (amended): hybrid_search normalizes BM25 by dividing by the
maximum over the grouped sessions BEFORE the project/after filters (not the
surviving set, as the claim states); still, every such normalized bm25 is
at most 1 and every final score 0.5*bm25 + 0.25*recency + 0.25*importance
of a returned result is at most 1. -/
theorem hybrid_search_bounds (fts_results : List FtsRow)
    (getSession : String → Option SessionRow)
    (getSummary : String → Option String) (now : ℚ) (limit : Nat)
    (project_path : Option String) (after : Option Int) :
    (∀ e ∈ group_fts fts_results,
      e.2.1 / max_rank (group_fts fts_results) ≤ 1) ∧
    (∀ r ∈ hybrid_search fts_results getSession getSummary now limit
        project_path after, r.score ≤ 1) := by
  refine ⟨grouped_norm_le_one fts_results, ?_⟩
  intro r hr
  unfold hybrid_search at hr
  by_cases hempty : (group_fts fts_results).isEmpty = true
  · rw [if_pos hempty] at hr
    exact absurd hr (List.not_mem_nil _)
  · rw [if_neg hempty] at hr
    have hr2 := List.mem_of_mem_take hr
    have hr4 : r ∈ hybrid_results fts_results getSession getSummary now
        project_path after :=
      ((List.perm_insertionSort _ _).mem_iff).1 hr2
    obtain ⟨e, he, hfe⟩ := List.mem_filterMap.1 hr4
    cases hgs : getSession e.1 with
    | none =>
      rw [hgs] at hfe
      exact absurd hfe (by simp)
    | some s =>
      rw [hgs] at hfe
      replace hfe : (if project_filter project_path s = true then none
          else if after_filter after s = true then none
          else some (score_session now (max_rank (group_fts fts_results)) s e
            (getSummary e.1))) = some r := hfe
      by_cases hpf : project_filter project_path s = true
      · rw [if_pos hpf] at hfe
        exact absurd hfe (by simp)
      · rw [if_neg hpf] at hfe
        by_cases haf : after_filter after s = true
        · rw [if_pos haf] at hfe
          exact absurd hfe (by simp)
        · rw [if_neg haf] at hfe
          rw [← Option.some.inj hfe]
          exact score_session_score_le_one _ _ _ _ _
            (grouped_norm_le_one fts_results e he)

/-- Concrete FTS row for session a (the best bm25, later filtered out). -/
def cRowA : FtsRow := { session_id := "a", rank := -4, content_text := "na" }

/-- Concrete FTS row for session b (survives the project filter). -/
def cRowB : FtsRow := { session_id := "b", rank := -2, content_text := "nb" }

/-- Concrete stored session a under project /p. -/
def cSessA : SessionRow :=
  { sessA with
    id := "a"
    project_path := some "/p"
    first_message_at := 0
    last_message_at := 0
    message_count := 0
    user_message_count := 0
    total_tokens := 0
    compaction_count := 0 }

/-- Concrete stored session b under project /q. -/
def cSessB : SessionRow :=
  { cSessA with
    id := "b"
    project_path := some "/q" }

/-- Concrete session lookup for the search witnesses. -/
def cGet : String → Option SessionRow :=
  fun sid => if sid = "a" then some cSessA else if sid = "b" then some cSessB else none

/-- Concrete summary lookup (no summaries stored). -/
def cSum : String → Option String := fun _ => none

set_option maxRecDepth 4000 in
/-- Helper: grouping of the two concrete rows. -/
theorem group_fts_eval :
    group_fts [cRowA, cRowB] = [("a", 4, "na"), ("b", 2, "nb")] := by
  decide

/-- Helper: hybrid_search at the concrete input returns exactly the scored
session b, normalized against the pre-filter maximum 4. -/
theorem hybrid_search_eval :
    hybrid_search [cRowA, cRowB] cGet cSum 0 10 (some "/q") none
      = [score_session 0 4 cSessB ("b", 2, "nb") none] := by
  have hmr : max_rank [("a", (4:ℚ), "na"), ("b", 2, "nb")] = 4 := by decide
  have hres : hybrid_results [cRowA, cRowB] cGet cSum 0 (some "/q") none
      = [score_session 0 4 cSessB ("b", 2, "nb") none] := by
    unfold hybrid_results
    rw [group_fts_eval, hmr]
    simp only [List.filterMap_cons, List.filterMap_nil]
    rw [show cGet ("a", (4:ℚ), "na").1 = some cSessA from rfl]
    rw [show cGet ("b", (2:ℚ), "nb").1 = some cSessB from rfl]
    dsimp only
    rw [show project_filter (some "/q") cSessA = true from by decide]
    rw [show project_filter (some "/q") cSessB = false from by decide]
    simp only [if_pos rfl, Bool.false_eq_true, if_false]
    rw [show after_filter none cSessB = false from rfl]
    simp only [Bool.false_eq_true, if_false]
    rfl
  unfold hybrid_search
  rw [group_fts_eval]
  rw [if_neg (by decide)]
  rw [hres]
  rw [show List.insertionSort (fun a b : SearchResult => b.score ≤ a.score)
      [score_session 0 4 cSessB ("b", 2, "nb") none]
      = [score_session 0 4 cSessB ("b", 2, "nb") none] from by
    simp [List.insertionSort, List.orderedInsert]]
  rfl

/-- Helper: the spec-ordered variant at the same input normalizes against
the post-filter maximum 2. -/
theorem hybrid_search_spec_eval :
    hybrid_search_specNormalized [cRowA, cRowB] cGet cSum 0 10 (some "/q") none
      = [score_session 0 2 cSessB ("b", 2, "nb") none] := by
  have hsurv : (group_fts [cRowA, cRowB]).filterMap (fun e =>
      match cGet e.1 with
      | none => none
      | some s =>
        if project_filter (some "/q") s then none
        else if after_filter none s then none
        else some (e, s))
      = [((("b":String), (2:ℚ), ("nb":String)), cSessB)] := by
    rw [group_fts_eval]
    simp only [List.filterMap_cons, List.filterMap_nil]
    rw [show cGet ("a", (4:ℚ), "na").1 = some cSessA from rfl]
    rw [show cGet ("b", (2:ℚ), "nb").1 = some cSessB from rfl]
    dsimp only
    rw [show project_filter (some "/q") cSessA = true from by decide]
    rw [show project_filter (some "/q") cSessB = false from by decide]
    simp only [if_pos rfl, Bool.false_eq_true, if_false]
    rw [show after_filter none cSessB = false from rfl]
    simp only [Bool.false_eq_true, if_false]
    rfl
  unfold hybrid_search_specNormalized
  rw [hsurv]
  rw [if_neg (by decide)]
  rw [show max_rank ([((("b":String), (2:ℚ), ("nb":String)), cSessB)].map
      (fun y => y.1)) = 2 from by decide]
  rw [show List.map
      (fun x : (String × ℚ × String) × SessionRow =>
        score_session 0 2 x.2 x.1 (cSum x.1.1))
      [((("b":String), (2:ℚ), ("nb":String)), cSessB)]
      = [score_session 0 2 cSessB ("b", 2, "nb") none] from rfl]
  rw [show List.insertionSort (fun a b : SearchResult => b.score ≤ a.score)
      [score_session 0 2 cSessB ("b", 2, "nb") none]
      = [score_session 0 2 cSessB ("b", 2, "nb") none] from by
    simp [List.insertionSort, List.orderedInsert]]
  rfl

/-- Helper: the recency factor of a zero-age session is 1. -/
theorem recency_score_zero_age : recency_score 0 0 = 1 := by
  unfold recency_score
  norm_num

/-- Helper: the importance of the all-zero-counter session b is 0. -/
theorem importance_score_cSessB : importance_score cSessB = 0 := by
  unfold importance_score
  norm_num [cSessB, cSessA, sessA]

/-- Helper: the code's score for session b at the concrete input. -/
theorem score_eval_code : (score_session 0 4 cSessB ("b", 2, "nb") none).score = 1/2 := by
  show ((2/4 : ℚ) : ℝ) * (1/2)
      + recency_score 0 ((cSessB.first_message_at : Int) : ℚ) * (1/4)
      + ((importance_score cSessB : ℚ) : ℝ) * (1/4) = 1/2
  rw [show ((cSessB.first_message_at : Int) : ℚ) = 0 from by norm_num [cSessB, cSessA, sessA]]
  rw [recency_score_zero_age, importance_score_cSessB]
  norm_num

/-- Helper: the spec-ordered score for session b at the concrete input. -/
theorem score_eval_spec : (score_session 0 2 cSessB ("b", 2, "nb") none).score = 3/4 := by
  show ((2/2 : ℚ) : ℝ) * (1/2)
      + recency_score 0 ((cSessB.first_message_at : Int) : ℚ) * (1/4)
      + ((importance_score cSessB : ℚ) : ℝ) * (1/4) = 3/4
  rw [show ((cSessB.first_message_at : Int) : ℚ) = 0 from by norm_num [cSessB, cSessA, sessA]]
  rw [recency_score_zero_age, importance_score_cSessB]
  norm_num

/-- Counterexample to claim C6 as stated: the BM25 divisor is the maximum
over the grouped set BEFORE the project filter, not over the surviving set.
With the best-ranked session filtered out, the code scores the survivor
1/2 while the spec's surviving-set normalization would give 3/4. -/
theorem hybrid_search_normalization_differs :
    (hybrid_search [cRowA, cRowB] cGet cSum 0 10 (some "/q") none).map
        SearchResult.score = [1/2] ∧
    (hybrid_search_specNormalized [cRowA, cRowB] cGet cSum 0 10 (some "/q")
        none).map SearchResult.score = [3/4] ∧
    ((1:ℝ)/2) ≠ 3/4 := by
  refine ⟨?_, ?_, by norm_num⟩
  · rw [hybrid_search_eval]
    rw [List.map_singleton, score_eval_code]
  · rw [hybrid_search_spec_eval]
    rw [List.map_singleton, score_eval_spec]

/-- Witness for hybrid_search_bounds at the concrete input: the returned
result is a member and its score is at most 1. -/
theorem hybrid_search_bounds_witness :
    score_session 0 4 cSessB ("b", 2, "nb") none
      ∈ hybrid_search [cRowA, cRowB] cGet cSum 0 10 (some "/q") none ∧
    (score_session 0 4 cSessB ("b", 2, "nb") none).score ≤ 1 := by
  have hmem : score_session 0 4 cSessB ("b", 2, "nb") none
      ∈ hybrid_search [cRowA, cRowB] cGet cSum 0 10 (some "/q") none := by
    rw [hybrid_search_eval]
    exact List.mem_singleton.2 rfl
  exact ⟨hmem,
    (hybrid_search_bounds [cRowA, cRowB] cGet cSum 0 10 (some "/q") none).2 _ hmem⟩

end LifeLongMemory
